import Mathlib

/-!
Shallow embedding of the USTAR archive codec of macrat/go-blanktar
(`src/main.go`, `src/block.go`).

Bytes are modelled as `Nat` (the Go program only ever stores values below 256),
byte strings as `List Nat`, and Go `int64` arithmetic as `Int` — every quantity
the codec computes is far below 2^63, so unbounded integers are faithful.
Go runtime panics (out-of-range slice expressions, `make` with a negative size)
are modelled as explicit error outcomes.
-/

namespace BlankTar

/-- Go's `copy` of a string into a fixed `w`-byte array: the first `w` bytes of
`s`, zero-padded up to width `w`.  The result always has length `w`. -/
def fit (w : Nat) (s : List Nat) : List Nat :=
  s.take w ++ List.replicate (w - s.length) 0

/-- The field of a serialized record at byte offset `off` with width `len`. -/
def slice (bs : List Nat) (off len : Nat) : List Nat := (bs.drop off).take len

/-- Structural helper for `octDigits`: the fuel argument only forces
termination and is always sufficient at `n + 1`. -/
def octDigitsAux : Nat → Nat → List Nat
  | 0, _ => []
  | fuel + 1, n =>
    if n < 8 then [0x30 + n] else octDigitsAux fuel (n / 8) ++ [0x30 + n % 8]

/-- The ASCII octal digits of `n`, most significant first — the body of Go's
`%o` formatting for a nonnegative value. -/
def octDigits (n : Nat) : List Nat := octDigitsAux (n + 1) n

theorem octDigitsAux_congr :
    ∀ fuel₁ fuel₂ n : Nat, n < fuel₁ → n < fuel₂ →
      octDigitsAux fuel₁ n = octDigitsAux fuel₂ n := by
  intro fuel₁
  induction fuel₁ with
  | zero => omega
  | succ f ih =>
    intro fuel₂ n h1 h2
    cases fuel₂ with
    | zero => omega
    | succ g =>
      rw [octDigitsAux, octDigitsAux]
      split
      · rfl
      · rename_i hge
        have hlt : n / 8 < n := Nat.div_lt_self (by omega) (by omega)
        rw [ih g (n / 8) (by omega) (by omega)]

/-- The defining recurrence of `octDigits`. -/
theorem octDigits_eq (n : Nat) :
    octDigits n = if n < 8 then [0x30 + n]
      else octDigits (n / 8) ++ [0x30 + n % 8] := by
  rw [octDigits, octDigitsAux]
  split
  · rfl
  · rename_i hge
    have hlt : n / 8 < n := Nat.div_lt_self (by omega) (by omega)
    rw [octDigitsAux_congr n (n / 8 + 1) (n / 8) (by omega) (by omega)]
    rfl

/-- Go `fmt.Sprintf` with verb `%0*o` for a nonnegative value: octal digits
left-padded with ASCII '0' to at least `w` characters. -/
def fmtOctal (w : Nat) (n : Nat) : List Nat :=
  List.replicate (w - (octDigits n).length) 0x30 ++ octDigits n

/-- Go `fmt.Sprintf` with verb `%07o` for an `int64` value: a minus sign counts
toward the padded width. -/
def fmtOctal7Int (v : Int) : List Nat :=
  if v < 0 then 0x2D :: fmtOctal 6 v.natAbs else fmtOctal 7 v.toNat

/-- ASCII octal digit predicate. -/
def isOctDigit (b : Nat) : Bool := 0x30 ≤ b && b ≤ 0x37

/-- ASCII whitespace bytes skipped by `fmt.Sscanf` before a numeric verb. -/
def isSpaceByte (b : Nat) : Bool :=
  b == 0x20 || b == 0x09 || b == 0x0A || b == 0x0B || b == 0x0C || b == 0x0D

/-- Drop leading whitespace bytes. -/
def skipSpaces : List Nat → List Nat
  | [] => []
  | b :: bs => if isSpaceByte b then skipSpaces bs else b :: bs

/-- Value of a run of ASCII octal digits, most significant first. -/
def octRunVal (ds : List Nat) : Nat := ds.foldl (fun a d => a * 8 + (d - 0x30)) 0

/-- `fmt.Sscanf(s, "%o", &i)` into an `int64`: skip leading spaces, accept an
optional sign, then read a maximal run of octal digits; when no digit is
present the scan fails and the destination keeps its zero value. -/
def parseOctInt (bs : List Nat) : Int :=
  let s := skipSpaces bs
  if s.headD 0 = 0x2D then - (octRunVal ((s.drop 1).takeWhile isOctDigit) : Int)
  else if s.headD 0 = 0x2B then (octRunVal ((s.drop 1).takeWhile isOctDigit) : Int)
  else (octRunVal (s.takeWhile isOctDigit) : Int)

/-- TypeFlag constant `REGTYPE` = '0' (src/main.go:143). -/
def REGTYPE : Nat := 0x30
/-- TypeFlag constant `DIRTYPE` = '5' (src/main.go:149). -/
def DIRTYPE : Nat := 0x35
/-- TypeFlag constant `CONTTYPE` = '7' (src/main.go:151). -/
def CONTTYPE : Nat := 0x37
/-- TypeFlag constant `SYMTYPE` = '2' (src/main.go:146). -/
def SYMTYPE : Nat := 0x32
/-- TypeFlag constant `CHRTYPE` = '3' (src/main.go:147). -/
def CHRTYPE : Nat := 0x33
/-- TypeFlag constant `BLKTYPE` = '4' (src/main.go:148). -/
def BLKTYPE : Nat := 0x34
/-- TypeFlag constant `FIFOTYPE` = '6' (src/main.go:150). -/
def FIFOTYPE : Nat := 0x36

/-- Go `os.ModeDir` bit. -/
def ModeDir : Nat := 2 ^ 31
/-- Go `os.ModeSymlink` bit. -/
def ModeSymlink : Nat := 2 ^ 27
/-- Go `os.ModeDevice` bit. -/
def ModeDevice : Nat := 2 ^ 26
/-- Go `os.ModeNamedPipe` bit. -/
def ModeNamedPipe : Nat := 2 ^ 25
/-- Go `os.ModeSetuid` bit. -/
def ModeSetuid : Nat := 2 ^ 23
/-- Go `os.ModeSetgid` bit. -/
def ModeSetgid : Nat := 2 ^ 22
/-- Go `os.ModeCharDevice` bit. -/
def ModeCharDevice : Nat := 2 ^ 21
/-- Go `os.ModePerm` = 0777. -/
def ModePerm : Nat := 0o777

/-- `NewMode` (src/main.go:57, src/block.go:107): permission bits plus the
setuid/setgid octal bits, formatted `%07o` into the 8-byte field. -/
def newMode (mode : Nat) : List Nat :=
  let i := (mode &&& ModePerm)
    ||| (if mode &&& ModeSetuid ≠ 0 then 0o4000 else 0)
    ||| (if mode &&& ModeSetgid ≠ 0 then 0o2000 else 0)
  fit 8 (fmtOctal 7 i)

/-- `NewSize` (src/main.go:94, src/block.go:144): `%07o` into the 12-byte field. -/
def newSize (size : Nat) : List Nat := fit 12 (fmtOctal 7 size)

/-- `NewTimestamp` (src/block.go:162): unix seconds clamped to be nonnegative,
`%011o` into the 12-byte field. -/
def newTimestamp (t : Int) : List Nat :=
  fit 12 (fmtOctal 11 (if t < 0 then 0 else t.toNat))

/-- `NewCheckSum` (src/main.go:124, src/block.go:185): `%07o` of the `int64`
checksum into the 8-byte field. -/
def newCheckSum (v : Int) : List Nat := fit 8 (fmtOctal7Int v)

/-- `NewID` (src/main.go:225): `%07o` into the 8-byte field. -/
def newID (id : Nat) : List Nat := fit 8 (fmtOctal 7 id)

/-- `NewMagic` (src/main.go:198): the bytes of "ustar" in the 6-byte field. -/
def newMagic : List Nat := fit 6 [0x75, 0x73, 0x74, 0x61, 0x72]

/-- `NewVersion` (src/main.go:210): the two bytes "00". -/
def newVersion : List Nat := [0x30, 0x30]

/-- `NewTypeFlag` (src/block.go:215): first matching mode bit wins. -/
def newTypeFlag (mode : Nat) : Nat :=
  if mode &&& ModeSymlink ≠ 0 then SYMTYPE
  else if mode &&& ModeCharDevice ≠ 0 then CHRTYPE
  else if mode &&& ModeDevice ≠ 0 then BLKTYPE
  else if mode &&& ModeDir ≠ 0 then DIRTYPE
  else if mode &&& ModeNamedPipe ≠ 0 then FIFOTYPE
  else REGTYPE

/-- The 512-byte header record (struct of src/main.go:241 / src/block.go:319).
Each field is the stored byte string of its fixed-width array; `pfx` models the
`Prefix` field. -/
structure HeaderBlock where
  name : List Nat
  mode : List Nat
  uid : List Nat
  gid : List Nat
  size : List Nat
  modified : List Nat
  checkSum : List Nat
  typeFlag : Nat
  linkName : List Nat
  magic : List Nat
  version : List Nat
  userName : List Nat
  groupName : List Nat
  devMajor : List Nat
  devMinor : List Nat
  pfx : List Nat
  padding : List Nat
deriving Repr, DecidableEq

/-- The all-zero header value (`HeaderBlock{}` in Go). -/
def emptyHeader : HeaderBlock :=
  ⟨[], [], [], [], [], [], [], 0, [], [], [], [], [], [], [], [], []⟩

/-- `binary.Write` serialization of the header (src/main.go:269): the fields in
declaration order, each in its fixed width; always exactly 512 bytes. -/
def headerBytes (h : HeaderBlock) : List Nat :=
  fit 100 h.name ++ fit 8 h.mode ++ fit 8 h.uid ++ fit 8 h.gid ++
  fit 12 h.size ++ fit 12 h.modified ++ fit 8 h.checkSum ++ [h.typeFlag] ++
  fit 100 h.linkName ++ fit 6 h.magic ++ fit 2 h.version ++ fit 32 h.userName ++
  fit 32 h.groupName ++ fit 8 h.devMajor ++ fit 8 h.devMinor ++ fit 155 h.pfx ++
  fit 12 h.padding

/-- `HeaderBlock.calcTotal` (src/main.go:279): sum of the 512 serialized bytes
as an `int64`. -/
def calcTotal (h : HeaderBlock) : Int := ((headerBytes h).map (Int.ofNat)).sum

/-- `HeaderBlock.CalcSum` (src/main.go:289, src/block.go:408): total minus the
stored checksum bytes plus the literal `0x30*6 - 0x20`. -/
def calcSum (h : HeaderBlock) : Int :=
  calcTotal h - ((fit 8 h.checkSum).map (Int.ofNat)).sum + (0x30 * 6 - 0x20)

/-- `CheckSum.Int` (src/main.go:130): `Sscanf` of the stored 8 bytes with `%o`. -/
def checkSumInt (h : HeaderBlock) : Int := parseOctInt (fit 8 h.checkSum)

/-- `HeaderBlock.Validate` (src/main.go:300, src/block.go:419). -/
def validate (h : HeaderBlock) : Bool := calcSum h == checkSumInt h

/-- `Size.Int` composed with `HeaderBlock.Size` (src/main.go:100,313). -/
def headerSize (h : HeaderBlock) : Int := parseOctInt (fit 12 h.size)

/-- `strings.TrimRight(s, "\u0000")` (src/block.go:48,66): drop trailing NULs. -/
def trimRightNul (s : List Nat) : List Nat := (s.reverse.dropWhile (· == 0)).reverse

/-- `HeaderBlock.Name` (src/main.go:304): the prefix and name fields rendered as
strings (trailing NUL padding stripped, src/block.go:48,66), joined by '/' when
the prefix is nonempty. -/
def headerName (h : HeaderBlock) : List Nat :=
  let pre := trimRightNul (fit 155 h.pfx)
  if pre = [] then trimRightNul (fit 100 h.name)
  else pre ++ 0x2F :: trimRightNul (fit 100 h.name)

/-- The checksum-sealing step `h.CheckSum = NewCheckSum(h.CalcSum())` performed
by every constructor (src/main.go:401,466, src/block.go:368). -/
def withCheckSum (h : HeaderBlock) : HeaderBlock :=
  { h with checkSum := newCheckSum (calcSum h) }

/-- The in-memory `File` (src/main.go:382): header, body buffer, and the
`bytes.Reader` cursor position used by `Seek`. -/
structure File where
  header : HeaderBlock
  body : List Nat
  pos : Nat
deriving Repr, DecidableEq

/-- The header literal `h` built inside `NewFile` (src/main.go:391): regular
file, mode `os.ModePerm`, uid/gid 1000; unset fields keep Go's zero value. -/
def newFileBase (name : List Nat) : HeaderBlock :=
  { name := fit 100 name
    mode := newMode ModePerm
    uid := newID 1000
    gid := newID 1000
    size := []
    modified := []
    checkSum := []
    typeFlag := REGTYPE
    linkName := []
    magic := newMagic
    version := newVersion
    userName := []
    groupName := []
    devMajor := []
    devMinor := []
    pfx := []
    padding := [] }

/-- `NewFile` (src/main.go:388): the header above with its checksum sealed,
an empty body, and the reader cursor at 0. -/
def newFile (name : List Nat) : File :=
  { header := withCheckSum (newFileBase name), body := [], pos := 0 }

/-- `File.Size` (src/main.go:443): current body length. -/
def fileSize (f : File) : Nat := f.body.length

/-- `File.Blocks` (src/main.go:447): `ceil(size/512)`. -/
def fileBlocks (f : File) : Nat := (fileSize f + 511) / 512

/-- `File.ContentBlocks` serialized (src/main.go:479): `ceil(len/512)` blocks of
512 bytes, block `i` copied from `Body[i*512:]` and zero-padded. -/
def contentBlocksBytes (body : List Nat) : List Nat :=
  ((List.range ((body.length + 511) / 512)).map
    (fun i => fit 512 (body.drop (i * 512)))).flatten

/-- `File.WriteTo` (src/main.go:489): the header record, then the content
blocks when the type flag is regular or contiguous. -/
def fileWriteTo (f : File) : List Nat :=
  headerBytes f.header ++
    (if f.header.typeFlag = REGTYPE ∨ f.header.typeFlag = CONTTYPE
     then contentBlocksBytes f.body else [])

/-- Error and panic outcomes of the modelled operations.  `eof` is Go's
`io.EOF` and `unexpectedEof` is `io.ErrUnexpectedEOF`; the `panic*`
constructors stand for Go runtime panics (`panicSliceOutOfRange` also covers a
slice expression reaching past the buffer's logical length, whose Go result is
at best unspecified memory); the last two are the named errors of
src/block.go:15. -/
inductive TarErr
  | eof
  | unexpectedEof
  | panicSliceOutOfRange
  | panicMakeNegative
  | panicIndexOutOfRange
  | propertyOverflow
  | nameTooLong
deriving Repr, DecidableEq

/-- `File.Write` (src/main.go:451).  `pos` is the reader cursor
(`Seek(0, io.SeekCurrent)`).  When `len(Body)-pos < len(p)` the body is
reallocated to `len(Body)-pos+len(p)` bytes (negative would panic in `make`),
the old body copied in; then `p` is copied at offset `pos` (a cursor past the
new buffer's end panics in the slice expression), the cursor advances by the
bytes copied, and Size and CheckSum are recomputed.  The returned number is
`int(n)`: the new cursor position. -/
def fileWrite (f : File) (p : List Nat) : Except TarErr (File × Nat) :=
  let pos := f.pos
  let grow : Int := (f.body.length : Int) - pos + p.length
  if (f.body.length : Int) - pos < p.length ∧ grow < 0 then .error .panicMakeNegative
  else
    let body1 := if (f.body.length : Int) - pos < (p.length : Int)
      then f.body.take grow.toNat ++ List.replicate (grow.toNat - f.body.length) 0
      else f.body
    if body1.length < pos then .error .panicSliceOutOfRange
    else
      let copied := min (body1.length - pos) p.length
      let body2 := body1.take pos ++ p.take copied ++ body1.drop (pos + copied)
      let h1 := { f.header with size := newSize body2.length }
      .ok ({ header := withCheckSum h1, body := body2, pos := pos + copied },
           pos + copied)

/-- `binary.Read` of one 512-byte record into the header struct: consecutive
fixed-width fields at their layout offsets. -/
def decodeHeader (bs : List Nat) : HeaderBlock :=
  { name := slice bs 0 100
    mode := slice bs 100 8
    uid := slice bs 108 8
    gid := slice bs 116 8
    size := slice bs 124 12
    modified := slice bs 136 12
    checkSum := slice bs 148 8
    typeFlag := bs.getD 156 0
    linkName := slice bs 157 100
    magic := slice bs 257 6
    version := slice bs 263 2
    userName := slice bs 265 32
    groupName := slice bs 297 32
    devMajor := slice bs 329 8
    devMinor := slice bs 337 8
    pfx := slice bs 345 155
    padding := slice bs 500 12 }

/-- `ParseFile` (src/main.go:410).  Read 512 header bytes (`binary.Read`:
empty input is `io.EOF`, a partial record `io.ErrUnexpectedEOF`); an all-zero
record is `io.EOF`; non-content types carry no body.  For content types the
code computes `blocks = ceil(Size/512)` and passes that count — a number of
blocks, not of bytes — to `io.CopyN`, so exactly `blocks` bytes are consumed
(fewer available is `io.EOF`); finally `buf.Bytes()[:Size]` takes `Size` bytes
from the `blocks` bytes actually read, which for `Size > blocks` reaches past
the buffer's length (modelled as `panicSliceOutOfRange`). -/
def parseFile (s : List Nat) : Except TarErr (File × List Nat) :=
  if s.length < 512 then
    .error (if s.length = 0 then .eof else .unexpectedEof)
  else
    let h := decodeHeader (s.take 512)
    let rest := s.drop 512
    if calcTotal h = 0 then .error .eof
    else if h.typeFlag ≠ REGTYPE ∧ h.typeFlag ≠ CONTTYPE then
      .ok ({ header := h, body := [], pos := 0 }, rest)
    else
      let blocks : Int := (headerSize h + 511) / 512
      let copied := min rest.length blocks.toNat
      if (copied : Int) ≠ blocks then .error .eof
      else if headerSize h < 0 ∨ (copied : Int) < headerSize h then
        .error .panicSliceOutOfRange
      else
        .ok ({ header := h, body := (rest.take copied).take (headerSize h).toNat,
               pos := 0 },
             rest.drop copied)

/-- A successful `ParseFile` consumes at least the 512 header bytes. -/
theorem parseFile_ok_length {s : List Nat} {f : File} {r : List Nat}
    (h : parseFile s = .ok (f, r)) : r.length < s.length := by
  unfold parseFile at h
  split at h
  · exact absurd h (by simp)
  · rename_i h1
    dsimp only at h
    split at h
    · exact absurd h (by simp)
    · split at h
      · rw [Except.ok.injEq, Prod.mk.injEq] at h
        obtain ⟨-, hr⟩ := h
        subst hr
        simp only [List.length_drop]
        omega
      · split at h
        · exact absurd h (by simp)
        · split at h
          · exact absurd h (by simp)
          · rw [Except.ok.injEq, Prod.mk.injEq] at h
            obtain ⟨-, hr⟩ := h
            subst hr
            simp only [List.length_drop, List.length_take]
            omega

/-- `Walk` (src/main.go:503), with the callback taken to collect every parsed
entry: loop `ParseFile`, stop cleanly at `io.EOF`, surface any other error. -/
def walk (s : List Nat) : Except TarErr (List File) :=
  match hp : parseFile s with
  | .error .eof => .ok []
  | .error .unexpectedEof => .error .unexpectedEof
  | .error .panicSliceOutOfRange => .error .panicSliceOutOfRange
  | .error .panicMakeNegative => .error .panicMakeNegative
  | .error .panicIndexOutOfRange => .error .panicIndexOutOfRange
  | .error .propertyOverflow => .error .propertyOverflow
  | .error .nameTooLong => .error .nameTooLong
  | .ok (f, rest) =>
    match walk rest with
    | .ok fs => .ok (f :: fs)
    | .error e => .error e
termination_by s.length
decreasing_by exact parseFile_ok_length hp

/-! ### Basic facts about the field codec -/

/-- Every byte list a Go value can hold has all entries below 256. -/
def validBytes (l : List Nat) : Prop := ∀ b ∈ l, b < 256

@[simp]
theorem fit_length (w : Nat) (s : List Nat) : (fit w s).length = w := by
  simp only [fit, List.length_append, List.length_take, List.length_replicate]
  omega

theorem fit_of_length_eq {w : Nat} {s : List Nat} (h : s.length = w) : fit w s = s := by
  simp [fit, h, List.take_of_length_le (le_of_eq h)]

theorem fit_fit (w : Nat) (s : List Nat) : fit w (fit w s) = fit w s :=
  fit_of_length_eq (fit_length w s)

theorem validBytes_append {l₁ l₂ : List Nat} :
    validBytes (l₁ ++ l₂) ↔ validBytes l₁ ∧ validBytes l₂ := by
  simp [validBytes, List.mem_append]
  constructor
  · intro h; exact ⟨fun b hb => h b (Or.inl hb), fun b hb => h b (Or.inr hb)⟩
  · rintro ⟨h1, h2⟩ b (hb | hb)
    · exact h1 b hb
    · exact h2 b hb

theorem validBytes_replicate {n x : Nat} (h : x < 256) :
    validBytes (List.replicate n x) := by
  intro b hb
  rw [List.eq_of_mem_replicate hb]
  exact h

theorem validBytes_fit {w : Nat} {s : List Nat} (h : validBytes s) :
    validBytes (fit w s) := by
  rw [fit, validBytes_append]
  exact ⟨fun b hb => h b (List.mem_of_mem_take hb), validBytes_replicate (by omega)⟩

theorem octDigits_mem {n : Nat} : ∀ d ∈ octDigits n, 0x30 ≤ d ∧ d ≤ 0x37 := by
  induction n using Nat.strong_induction_on with
  | _ n ih =>
    rw [octDigits_eq]
    split
    · rename_i hlt
      intro d hd
      simp only [List.mem_singleton] at hd
      omega
    · rename_i hge
      intro d hd
      rw [List.mem_append] at hd
      rcases hd with hd | hd
      · exact ih (n / 8) (Nat.div_lt_self (by omega) (by omega)) d hd
      · simp only [List.mem_singleton] at hd
        have : n % 8 < 8 := Nat.mod_lt _ (by omega)
        omega

theorem validBytes_octDigits {n : Nat} : validBytes (octDigits n) := by
  intro d hd
  have := octDigits_mem d hd
  omega

theorem octDigits_ne_nil {n : Nat} : octDigits n ≠ [] := by
  rw [octDigits_eq]
  split <;> simp

theorem octDigits_length_le {n k : Nat} (hk : 1 ≤ k) (h : n < 8 ^ k) :
    (octDigits n).length ≤ k := by
  induction n using Nat.strong_induction_on generalizing k with
  | _ n ih =>
    rw [octDigits_eq]
    split
    · simpa using hk
    · rename_i hge
      have hk2 : 2 ≤ k := by
        by_contra hc
        interval_cases k <;> omega
      have : n / 8 < 8 ^ (k - 1) := by
        apply Nat.div_lt_of_lt_mul
        have : 8 * 8 ^ (k - 1) = 8 ^ k := by
          rw [← pow_succ']
          congr 1
          omega
        omega
      have := ih (n / 8) (Nat.div_lt_self (by omega) (by omega)) (by omega) this
      simp only [List.length_append, List.length_singleton]
      omega

theorem octRunVal_octDigits_foldl (n : Nat) (a : Nat) :
    (octDigits n).foldl (fun x d => x * 8 + (d - 0x30)) a =
      a * 8 ^ (octDigits n).length + n := by
  induction n using Nat.strong_induction_on generalizing a with
  | _ n ih =>
    rw [octDigits_eq]
    split
    · rename_i hlt
      simp only [List.foldl_cons, List.foldl_nil, List.length_singleton, pow_one]
      omega
    · rename_i hge
      rw [List.foldl_append]
      rw [ih (n / 8) (Nat.div_lt_self (by omega) (by omega)) a]
      simp only [List.foldl_cons, List.foldl_nil, List.length_append,
        List.length_singleton]
      have hmod : 0x30 + n % 8 - 0x30 = n % 8 := by omega
      rw [hmod, pow_succ, ← mul_assoc, add_mul, add_assoc]
      congr 1
      omega

theorem foldl_replicate_zero_digit (k : Nat) (a : Nat) (ha : a = 0) :
    (List.replicate k 0x30).foldl (fun x d => x * 8 + (d - 0x30)) a = 0 := by
  subst ha
  induction k with
  | zero => rfl
  | succ k ih => simpa using ih

theorem octRunVal_fmtOctal (w n : Nat) : octRunVal (fmtOctal w n) = n := by
  rw [fmtOctal, octRunVal, List.foldl_append, foldl_replicate_zero_digit _ _ rfl,
    octRunVal_octDigits_foldl]
  simp

theorem takeWhile_append_all {p : Nat → Bool} {l₁ l₂ : List Nat}
    (h : ∀ x ∈ l₁, p x) : (l₁ ++ l₂).takeWhile p = l₁ ++ l₂.takeWhile p := by
  induction l₁ with
  | nil => rfl
  | cons a as ih =>
    have ha : p a = true := h a (by simp)
    simp [List.takeWhile_cons, ha, ih (fun x hx => h x (by simp [hx]))]

theorem takeWhile_nondigit_head {b : Nat} {l : List Nat} (h : isOctDigit b = false) :
    (b :: l).takeWhile isOctDigit = [] := by
  simp [List.takeWhile_cons, h]

theorem skipSpaces_of_head_nonspace {l : List Nat}
    (h : isSpaceByte (l.headD 0) = false) : skipSpaces l = l := by
  cases l with
  | nil => rfl
  | cons b bs =>
    simp only [List.headD_cons] at h
    rw [skipSpaces, h]
    simp

theorem fmtOctal_length {w n : Nat} (h : (octDigits n).length ≤ w) :
    (fmtOctal w n).length = w := by
  simp only [fmtOctal, List.length_append, List.length_replicate]
  omega

theorem fmtOctal_all_digits (w n : Nat) : ∀ d ∈ fmtOctal w n, isOctDigit d = true := by
  intro d hd
  rw [fmtOctal, List.mem_append] at hd
  rcases hd with hd | hd
  · rw [List.eq_of_mem_replicate hd]
    rfl
  · have := octDigits_mem d hd
    simp only [isOctDigit, Bool.and_eq_true, decide_eq_true_eq]
    omega

/-- The stored form of a `NewCheckSum` field for a value a real record can
produce: seven octal digits (zero-padded) and a final zero byte. -/
theorem newCheckSum_form {v : Int} (h0 : 0 ≤ v) (h7 : v < 8 ^ 7) :
    newCheckSum v = fmtOctal 7 v.toNat ++ [0] := by
  have hnat : v.toNat < 8 ^ 7 := by omega
  have hlen7 : (fmtOctal 7 v.toNat).length = 7 :=
    fmtOctal_length (octDigits_length_le (by omega) hnat)
  rw [newCheckSum, fmtOctal7Int, if_neg (by omega), fit,
    List.take_of_length_le (by rw [hlen7]; omega), hlen7]
  rfl

/-- Parsing the stored checksum field written by `NewCheckSum` recovers the
value, for any value an actual 512-byte record can produce. -/
theorem parseOctInt_newCheckSum {v : Int} (h0 : 0 ≤ v) (h7 : v < 8 ^ 7) :
    parseOctInt (fit 8 (newCheckSum v)) = v := by
  have hnat : v.toNat < 8 ^ 7 := by omega
  have hlen7 : (fmtOctal 7 v.toNat).length = 7 :=
    fmtOctal_length (octDigits_length_le (by omega) hnat)
  have hform : newCheckSum v = fmtOctal 7 v.toNat ++ [0] :=
    newCheckSum_form h0 h7
  have hfitcs : fit 8 (newCheckSum v) = newCheckSum v :=
    fit_of_length_eq (by rw [newCheckSum]; exact fit_length _ _)
  rw [hfitcs, hform]
  obtain ⟨d, ds, hds⟩ : ∃ d ds, fmtOctal 7 v.toNat = d :: ds := by
    cases hfm : fmtOctal 7 v.toNat with
    | nil => rw [hfm] at hlen7; simp at hlen7
    | cons a as => exact ⟨a, as, rfl⟩
  have hd : d ∈ fmtOctal 7 v.toNat := by rw [hds]; simp
  have hdig := fmtOctal_all_digits 7 v.toNat d hd
  simp only [isOctDigit, Bool.and_eq_true, decide_eq_true_eq] at hdig
  rw [hds, List.cons_append, parseOctInt]
  have hskip : skipSpaces (d :: (ds ++ [0])) = d :: (ds ++ [0]) := by
    apply skipSpaces_of_head_nonspace
    simp only [List.headD_cons, isSpaceByte]
    simp only [Bool.or_eq_false_iff, beq_eq_false_iff_ne, ne_eq]
    omega
  simp only [hskip, List.headD_cons]
  rw [if_neg (by omega), if_neg (by omega)]
  have hrun : (d :: (ds ++ [0])).takeWhile isOctDigit = d :: ds := by
    have : d :: (ds ++ [0]) = (d :: ds) ++ [0] := by simp
    rw [this, takeWhile_append_all (by rw [← hds]; exact fmtOctal_all_digits 7 v.toNat),
      takeWhile_nondigit_head (by rfl)]
    simp
  rw [hrun, ← hds, octRunVal_fmtOctal]
  omega

/-! ### Checksum decomposition -/

/-- The serialized bytes that precede the checksum field (offsets 0–147). -/
def preBytes (h : HeaderBlock) : List Nat :=
  fit 100 h.name ++ fit 8 h.mode ++ fit 8 h.uid ++ fit 8 h.gid ++
  fit 12 h.size ++ fit 12 h.modified

/-- The serialized bytes that follow the checksum field (offsets 156–511). -/
def sufBytes (h : HeaderBlock) : List Nat :=
  [h.typeFlag] ++ fit 100 h.linkName ++ fit 6 h.magic ++ fit 2 h.version ++
  fit 32 h.userName ++ fit 32 h.groupName ++ fit 8 h.devMajor ++
  fit 8 h.devMinor ++ fit 155 h.pfx ++ fit 12 h.padding

theorem headerBytes_eq_parts (h : HeaderBlock) :
    headerBytes h = preBytes h ++ fit 8 h.checkSum ++ sufBytes h := by
  simp [headerBytes, preBytes, sufBytes]

/-- Sum (as Go `int64`) of a byte list. -/
def byteSum (l : List Nat) : Int := (l.map (Int.ofNat)).sum

theorem byteSum_nonneg (l : List Nat) : 0 ≤ byteSum l := by
  apply List.sum_nonneg
  intro x hx
  rw [List.mem_map] at hx
  obtain ⟨b, -, rfl⟩ := hx
  exact Int.ofNat_nonneg b

theorem byteSum_append (l₁ l₂ : List Nat) :
    byteSum (l₁ ++ l₂) = byteSum l₁ + byteSum l₂ := by
  simp [byteSum]

theorem byteSum_le {l : List Nat} (h : validBytes l) :
    byteSum l ≤ l.length * 255 := by
  induction l with
  | nil => simp [byteSum]
  | cons b bs ih =>
    have hb : b < 256 := h b (by simp)
    have hbs : validBytes bs := fun x hx => h x (by simp [hx])
    have := ih hbs
    simp only [byteSum, List.map_cons, List.sum_cons, List.length_cons,
      Int.ofNat_eq_natCast] at *
    push_cast
    push_cast at this
    have hb' : (b : Int) ≤ 255 := by omega
    linarith [this, hb']

theorem calcSum_eq_parts (h : HeaderBlock) :
    calcSum h = byteSum (preBytes h) + byteSum (sufBytes h) + (0x30 * 6 - 0x20) := by
  rw [calcSum, calcTotal, headerBytes_eq_parts]
  simp only [List.map_append, List.sum_append, byteSum]
  ring

/-- `CalcSum` does not depend on the stored checksum field. -/
theorem calcSum_checkSum_irrel (h : HeaderBlock) (c : List Nat) :
    calcSum { h with checkSum := c } = calcSum h := by
  rw [calcSum_eq_parts, calcSum_eq_parts]
  rfl

theorem calcSum_nonneg (h : HeaderBlock) : 0 ≤ calcSum h := by
  rw [calcSum_eq_parts]
  have h1 := byteSum_nonneg (preBytes h)
  have h2 := byteSum_nonneg (sufBytes h)
  omega

theorem preBytes_length (h : HeaderBlock) : (preBytes h).length = 148 := by
  simp [preBytes]

theorem sufBytes_length (h : HeaderBlock) : (sufBytes h).length = 356 := by
  simp [sufBytes]

theorem calcSum_lt {h : HeaderBlock} (hv : validBytes (headerBytes h)) :
    calcSum h < 8 ^ 7 := by
  rw [headerBytes_eq_parts, validBytes_append, validBytes_append] at hv
  obtain ⟨⟨hpre, -⟩, hsuf⟩ := hv
  have h1 := byteSum_le hpre
  have h2 := byteSum_le hsuf
  rw [preBytes_length] at h1
  rw [sufBytes_length] at h2
  rw [calcSum_eq_parts]
  norm_num at h1 h2 ⊢
  omega

theorem validBytes_fmtOctal (w n : Nat) : validBytes (fmtOctal w n) := by
  intro d hd
  have := fmtOctal_all_digits w n d hd
  simp only [isOctDigit, Bool.and_eq_true, decide_eq_true_eq] at this
  omega

theorem validBytes_newCheckSum (v : Int) : validBytes (newCheckSum v) := by
  rw [newCheckSum]
  apply validBytes_fit
  rw [fmtOctal7Int]
  split
  · intro b hb
    rcases List.mem_cons.mp hb with rfl | hb
    · omega
    · exact validBytes_fmtOctal _ _ b hb
  · exact validBytes_fmtOctal _ _

/-- Sealing a header with `NewCheckSum(CalcSum())` makes `Validate` hold, for
any header whose serialized bytes are genuine bytes. -/
theorem validate_withCheckSum {h : HeaderBlock} (hv : validBytes (headerBytes h)) :
    validate (withCheckSum h) = true := by
  rw [validate, beq_iff_eq]
  have h1 : calcSum (withCheckSum h) = calcSum h :=
    calcSum_checkSum_irrel h (newCheckSum (calcSum h))
  have h2 : checkSumInt (withCheckSum h) = calcSum h := by
    rw [checkSumInt]
    exact parseOctInt_newCheckSum (calcSum_nonneg h) (calcSum_lt hv)
  rw [h1, h2]

theorem preBytes_setCheckSum (h : HeaderBlock) (c : List Nat) :
    preBytes { h with checkSum := c } = preBytes h := rfl

theorem sufBytes_setCheckSum (h : HeaderBlock) (c : List Nat) :
    sufBytes { h with checkSum := c } = sufBytes h := rfl

theorem validBytes_headerBytes_withCheckSum {h : HeaderBlock}
    (hv : validBytes (headerBytes h)) :
    validBytes (headerBytes (withCheckSum h)) := by
  rw [withCheckSum, headerBytes_eq_parts, preBytes_setCheckSum, sufBytes_setCheckSum]
  dsimp only
  rw [headerBytes_eq_parts, validBytes_append, validBytes_append] at hv
  rw [validBytes_append, validBytes_append]
  exact ⟨⟨hv.1.1, validBytes_fit (validBytes_newCheckSum _)⟩, hv.2⟩

/-! ### Serialization and deserialization are mutually inverse -/

theorem slice_append_slice (bs : List Nat) (a b c : Nat) :
    slice bs a b ++ slice bs (a + b) c = slice bs a (b + c) := by
  simp only [slice]
  have hdd : bs.drop (a + b) = (bs.drop a).drop b := by
    rw [List.drop_drop]
  rw [hdd, ← List.take_add]

theorem fit_slice {bs : List Nat} {off w : Nat} (h : off + w ≤ bs.length) :
    fit w (slice bs off w) = slice bs off w := by
  apply fit_of_length_eq
  simp only [slice, List.length_take, List.length_drop]
  omega

theorem slice_zero_full {bs : List Nat} (h : bs.length = 512) :
    slice bs 0 512 = bs := by
  rw [slice, List.drop_zero]
  exact List.take_of_length_le (le_of_eq h)

theorem singleton_getD {bs : List Nat} (h : 156 < bs.length) :
    [bs.getD 156 0] = slice bs 156 1 := by
  rw [slice, List.drop_eq_getElem_cons h]
  rw [List.getD_eq_getElem bs 0 h]
  rfl

/-- Re-serializing a parsed 512-byte record reproduces it byte for byte. -/
theorem headerBytes_decodeHeader {bs : List Nat} (hlen : bs.length = 512) :
    headerBytes (decodeHeader bs) = bs := by
  rw [headerBytes, decodeHeader]
  dsimp only
  rw [fit_slice (by omega), fit_slice (by omega), fit_slice (by omega),
    fit_slice (by omega), fit_slice (by omega), fit_slice (by omega),
    fit_slice (by omega), fit_slice (by omega), fit_slice (by omega),
    fit_slice (by omega), fit_slice (by omega), fit_slice (by omega),
    fit_slice (by omega), fit_slice (by omega), fit_slice (by omega),
    fit_slice (by omega), singleton_getD (by omega)]
  have e01 : slice bs 0 100 ++ slice bs 100 8 = slice bs 0 108 :=
    slice_append_slice bs 0 100 8
  have e02 : slice bs 0 108 ++ slice bs 108 8 = slice bs 0 116 :=
    slice_append_slice bs 0 108 8
  have e03 : slice bs 0 116 ++ slice bs 116 8 = slice bs 0 124 :=
    slice_append_slice bs 0 116 8
  have e04 : slice bs 0 124 ++ slice bs 124 12 = slice bs 0 136 :=
    slice_append_slice bs 0 124 12
  have e05 : slice bs 0 136 ++ slice bs 136 12 = slice bs 0 148 :=
    slice_append_slice bs 0 136 12
  have e06 : slice bs 0 148 ++ slice bs 148 8 = slice bs 0 156 :=
    slice_append_slice bs 0 148 8
  have e07 : slice bs 0 156 ++ slice bs 156 1 = slice bs 0 157 :=
    slice_append_slice bs 0 156 1
  have e08 : slice bs 0 157 ++ slice bs 157 100 = slice bs 0 257 :=
    slice_append_slice bs 0 157 100
  have e09 : slice bs 0 257 ++ slice bs 257 6 = slice bs 0 263 :=
    slice_append_slice bs 0 257 6
  have e10 : slice bs 0 263 ++ slice bs 263 2 = slice bs 0 265 :=
    slice_append_slice bs 0 263 2
  have e11 : slice bs 0 265 ++ slice bs 265 32 = slice bs 0 297 :=
    slice_append_slice bs 0 265 32
  have e12 : slice bs 0 297 ++ slice bs 297 32 = slice bs 0 329 :=
    slice_append_slice bs 0 297 32
  have e13 : slice bs 0 329 ++ slice bs 329 8 = slice bs 0 337 :=
    slice_append_slice bs 0 329 8
  have e14 : slice bs 0 337 ++ slice bs 337 8 = slice bs 0 345 :=
    slice_append_slice bs 0 337 8
  have e15 : slice bs 0 345 ++ slice bs 345 155 = slice bs 0 500 :=
    slice_append_slice bs 0 345 155
  have e16 : slice bs 0 500 ++ slice bs 500 12 = slice bs 0 512 :=
    slice_append_slice bs 0 500 12
  rw [e01, e02, e03, e04, e05, e06, e07, e08, e09, e10, e11, e12, e13, e14, e15,
    e16, slice_zero_full hlen]

theorem calcTotal_decodeHeader {bs : List Nat} (hlen : bs.length = 512) :
    calcTotal (decodeHeader bs) = byteSum bs := by
  rw [calcTotal, headerBytes_decodeHeader hlen, byteSum]

/-! ### End-of-archive and truncation behaviour of the walker -/

theorem parseFile_zero_record (rest : List Nat) :
    parseFile (List.replicate 512 0 ++ rest) = .error .eof := by
  rw [parseFile]
  rw [if_neg (by simp only [List.length_append, List.length_replicate]; omega)]
  dsimp only
  have htake : (List.replicate 512 0 ++ rest).take 512 = List.replicate 512 (0 : Nat) := by
    rw [List.take_append_of_le_length (by rw [List.length_replicate]),
      List.take_of_length_le (by rw [List.length_replicate])]
  rw [htake]
  have hct : calcTotal (decodeHeader (List.replicate 512 (0 : Nat))) = 0 := by
    rw [calcTotal_decodeHeader (by rw [List.length_replicate]), byteSum,
      List.map_replicate, List.sum_replicate]
    simp
  rw [if_pos hct]

theorem walk_eof {s : List Nat} (h : parseFile s = .error .eof) :
    walk s = .ok [] := by
  rw [walk]
  split
  · rfl
  all_goals rename_i heq
  all_goals rw [h] at heq
  all_goals simp_all

theorem parseFile_short {s : List Nat} (h0 : 0 < s.length) (h512 : s.length < 512) :
    parseFile s = .error .unexpectedEof := by
  rw [parseFile, if_pos h512, if_neg (by omega)]

theorem parseFile_nil : parseFile [] = .error .eof := by
  rw [parseFile]
  rfl

/-! ### Extracting single fields from a serialized record -/

theorem headerBytes_length (h : HeaderBlock) : (headerBytes h).length = 512 := by
  simp [headerBytes, fit_length]

theorem slice_of_decomp (P F S : List Nat) {bs : List Nat} {off w : Nat}
    (hbs : bs = P ++ (F ++ S)) (hP : P.length = off) (hF : F.length = w) :
    slice bs off w = F := by
  subst hbs hP hF
  rw [slice, List.drop_left, List.take_append_of_le_length le_rfl,
    List.take_of_length_le le_rfl]

theorem getD_of_decomp (P S : List Nat) {bs : List Nat} {f : Nat} {off : Nat}
    (hbs : bs = P ++ (f :: S)) (hP : P.length = off) :
    bs.getD off 0 = f := by
  subst hbs hP
  rw [List.getD_append_right _ _ _ _ le_rfl]
  simp

theorem decodeHeader_typeFlag_raw (bs : List Nat) :
    (decodeHeader bs).typeFlag = bs.getD 156 0 := rfl

theorem decodeHeader_size_raw (bs : List Nat) :
    (decodeHeader bs).size = slice bs 124 12 := rfl

theorem decodeHeader_checkSum_raw (bs : List Nat) :
    (decodeHeader bs).checkSum = slice bs 148 8 := rfl

theorem decodeHeader_typeFlag (h : HeaderBlock) :
    (decodeHeader (headerBytes h)).typeFlag = h.typeFlag := by
  rw [decodeHeader_typeFlag_raw]
  apply getD_of_decomp (fit 100 h.name ++ fit 8 h.mode ++ fit 8 h.uid ++
    fit 8 h.gid ++ fit 12 h.size ++ fit 12 h.modified ++ fit 8 h.checkSum)
    (fit 100 h.linkName ++ (fit 6 h.magic ++ (fit 2 h.version ++
      (fit 32 h.userName ++ (fit 32 h.groupName ++ (fit 8 h.devMajor ++
      (fit 8 h.devMinor ++ (fit 155 h.pfx ++ fit 12 h.padding))))))))
  · simp [headerBytes, List.append_assoc]
  · simp [fit_length]

theorem decodeHeader_size (h : HeaderBlock) :
    (decodeHeader (headerBytes h)).size = fit 12 h.size := by
  rw [decodeHeader_size_raw]
  apply slice_of_decomp (fit 100 h.name ++ fit 8 h.mode ++ fit 8 h.uid ++
    fit 8 h.gid) (fit 12 h.size)
    (fit 12 h.modified ++ (fit 8 h.checkSum ++ ([h.typeFlag] ++
      (fit 100 h.linkName ++ (fit 6 h.magic ++ (fit 2 h.version ++
      (fit 32 h.userName ++ (fit 32 h.groupName ++ (fit 8 h.devMajor ++
      (fit 8 h.devMinor ++ (fit 155 h.pfx ++ fit 12 h.padding)))))))))))
  · simp [headerBytes, List.append_assoc]
  · simp [fit_length]
  · exact fit_length _ _

theorem decodeHeader_checkSum (h : HeaderBlock) :
    (decodeHeader (headerBytes h)).checkSum = fit 8 h.checkSum := by
  rw [decodeHeader_checkSum_raw]
  apply slice_of_decomp (fit 100 h.name ++ fit 8 h.mode ++ fit 8 h.uid ++
    fit 8 h.gid ++ fit 12 h.size ++ fit 12 h.modified) (fit 8 h.checkSum)
    ([h.typeFlag] ++ (fit 100 h.linkName ++ (fit 6 h.magic ++
      (fit 2 h.version ++ (fit 32 h.userName ++ (fit 32 h.groupName ++
      (fit 8 h.devMajor ++ (fit 8 h.devMinor ++ (fit 155 h.pfx ++
      fit 12 h.padding)))))))))
  · simp [headerBytes, List.append_assoc]
  · simp [fit_length]
  · exact fit_length _ _

theorem headerSize_decodeHeader (h : HeaderBlock) :
    headerSize (decodeHeader (headerBytes h)) = headerSize h := by
  rw [headerSize, headerSize, decodeHeader_size, fit_fit]

theorem checkSumInt_decodeHeader (h : HeaderBlock) :
    checkSumInt (decodeHeader (headerBytes h)) = checkSumInt h := by
  rw [checkSumInt, checkSumInt, decodeHeader_checkSum, fit_fit]

theorem calcSum_decodeHeader (h : HeaderBlock) :
    calcSum (decodeHeader (headerBytes h)) = calcSum h := by
  rw [calcSum, calcSum, calcTotal_decodeHeader (headerBytes_length h),
    decodeHeader_checkSum, fit_fit, calcTotal, byteSum]

/-- `Validate` sees only the serialized bytes: it is preserved by a
serialize/deserialize round trip. -/
theorem validate_decodeHeader (h : HeaderBlock) :
    validate (decodeHeader (headerBytes h)) = validate h := by
  rw [validate, validate, calcSum_decodeHeader, checkSumInt_decodeHeader]

/-- Positivity of the record sum whenever some byte is positive; used to show a
real header is never taken for a footer. -/
theorem calcTotal_decode_ne_zero {h : HeaderBlock} (htf : 0 < h.typeFlag) :
    calcTotal (decodeHeader (headerBytes h)) ≠ 0 := by
  rw [calcTotal_decodeHeader (headerBytes_length h), headerBytes_eq_parts,
    byteSum_append, byteSum_append]
  have h1 := byteSum_nonneg (preBytes h)
  have h2 := byteSum_nonneg (fit 8 h.checkSum)
  have h3 : (h.typeFlag : Int) ≤ byteSum (sufBytes h) := by
    have hsuf : sufBytes h = h.typeFlag :: (fit 100 h.linkName ++ (fit 6 h.magic ++
        (fit 2 h.version ++ (fit 32 h.userName ++ (fit 32 h.groupName ++
        (fit 8 h.devMajor ++ (fit 8 h.devMinor ++ (fit 155 h.pfx ++
        fit 12 h.padding)))))))) := by
      simp [sufBytes, List.append_assoc]
    rw [hsuf]
    have h4 := byteSum_nonneg (fit 100 h.linkName ++ (fit 6 h.magic ++
      (fit 2 h.version ++ (fit 32 h.userName ++ (fit 32 h.groupName ++
      (fit 8 h.devMajor ++ (fit 8 h.devMinor ++ (fit 155 h.pfx ++
      fit 12 h.padding))))))))
    have h5 : byteSum (h.typeFlag :: (fit 100 h.linkName ++ (fit 6 h.magic ++
        (fit 2 h.version ++ (fit 32 h.userName ++ (fit 32 h.groupName ++
        (fit 8 h.devMajor ++ (fit 8 h.devMinor ++ (fit 155 h.pfx ++
        fit 12 h.padding))))))))) = (h.typeFlag : Int) +
        byteSum (fit 100 h.linkName ++ (fit 6 h.magic ++ (fit 2 h.version ++
        (fit 32 h.userName ++ (fit 32 h.groupName ++ (fit 8 h.devMajor ++
        (fit 8 h.devMinor ++ (fit 155 h.pfx ++ fit 12 h.padding)))))))) := by
      simp [byteSum]
    omega
  have htf' : (0 : Int) < h.typeFlag := by exact_mod_cast htf
  omega

/-! ### Symbolic evaluation of the encoder -/

/-- `File.Write` on a fresh entry (empty body, cursor 0): the body becomes `p`,
the cursor and returned position advance to `len(p)`, Size and CheckSum are
recomputed. -/
theorem fileWrite_empty (h : HeaderBlock) (p : List Nat) :
    fileWrite ⟨h, [], 0⟩ p =
      .ok (⟨withCheckSum { h with size := newSize p.length }, p, p.length⟩,
        p.length) := by
  rw [fileWrite]
  cases p with
  | nil => simp
  | cons a as =>
    simp
    omega

/-- The content framing of a body that fits one block (src/main.go:479):
exactly one 512-byte block, the body zero-padded. -/
theorem contentBlocksBytes_one {body : List Nat} (h0 : 0 < body.length)
    (h512 : body.length ≤ 512) :
    contentBlocksBytes body = fit 512 body := by
  rw [contentBlocksBytes]
  have hb : (body.length + 511) / 512 = 1 := by omega
  rw [hb]
  have hr : List.range 1 = [0] := rfl
  rw [hr]
  simp

/-- `ParseFile` on a stream that starts with the serialization of a header `H`
whose type flag byte is nonzero: the 512 header bytes are consumed and decoded;
for a content-bearing type the decoder then consumes `blocks` bytes — the block
count `ceil(Size/512)` that the code hands `io.CopyN` as a byte count — and
takes `Size` bytes of what it buffered. -/
theorem parseFile_headerBytes_append (H : HeaderBlock) (tail : List Nat)
    (htf : 0 < H.typeFlag) :
    parseFile (headerBytes H ++ tail) =
      if H.typeFlag ≠ REGTYPE ∧ H.typeFlag ≠ CONTTYPE then
        .ok ({ header := decodeHeader (headerBytes H), body := [], pos := 0 }, tail)
      else
        let blocks : Int := (headerSize H + 511) / 512
        let copied := min tail.length blocks.toNat
        if (copied : Int) ≠ blocks then .error .eof
        else if headerSize H < 0 ∨ (copied : Int) < headerSize H then
          .error .panicSliceOutOfRange
        else
          .ok ({ header := decodeHeader (headerBytes H),
                 body := (tail.take copied).take (headerSize H).toNat, pos := 0 },
               tail.drop copied) := by
  have hlen : (headerBytes H ++ tail).length = 512 + tail.length := by
    rw [List.length_append, headerBytes_length]
  have htake : (headerBytes H ++ tail).take 512 = headerBytes H := by
    rw [List.take_append_of_le_length (by rw [headerBytes_length]),
      List.take_of_length_le (by rw [headerBytes_length])]
  have hdrop : (headerBytes H ++ tail).drop 512 = tail := by
    rw [← headerBytes_length H, List.drop_left]
  rw [parseFile, if_neg (show ¬((headerBytes H ++ tail).length < 512) from by omega)]
  dsimp only
  rw [htake, hdrop, if_neg (calcTotal_decode_ne_zero htf),
    decodeHeader_typeFlag H, headerSize_decodeHeader H]

/-! ### The concrete scenario of the specification -/

/-- The bytes of the path "foobar". -/
def fooName : List Nat := [0x66, 0x6F, 0x6F, 0x62, 0x61, 0x72]

/-- The 13 bytes of "hello world!\n". -/
def helloBody : List Nat :=
  [0x68, 0x65, 0x6C, 0x6C, 0x6F, 0x20, 0x77, 0x6F, 0x72, 0x6C, 0x64, 0x21, 0x0A]

/-- The entry of `main` (src/main.go:520) before the body write. -/
def fooFile0 : File := newFile fooName

/-- The entry of `main` after `Fprintln` writes the 13-byte body once. -/
def fooFile1 : File :=
  match fileWrite fooFile0 helloBody with
  | .ok p => p.1
  | .error _ => fooFile0

theorem newFile_eq (name : List Nat) :
    newFile name = ⟨(newFile name).header, [], 0⟩ := rfl

/-- The header of the scenario entry after its 13-byte body write. -/
def fooHeader13 : HeaderBlock :=
  withCheckSum { (newFile fooName).header with size := newSize 13 }

theorem fileWrite_foo :
    fileWrite fooFile0 helloBody = .ok (⟨fooHeader13, helloBody, 13⟩, 13) := by
  unfold fooFile0
  rw [newFile_eq, fileWrite_empty]
  rfl

theorem fooFile1_eq : fooFile1 = ⟨fooHeader13, helloBody, 13⟩ := by
  unfold fooFile1
  rw [fileWrite_foo]

theorem fooHeader13_typeFlag : fooHeader13.typeFlag = REGTYPE := rfl

theorem headerSize_fooHeader13 : headerSize fooHeader13 = 13 := by
  have hs : fooHeader13.size = newSize 13 := rfl
  rw [headerSize, hs]
  decide

theorem fileWriteTo_fooFile1 :
    fileWriteTo fooFile1 = headerBytes fooHeader13 ++ fit 512 helloBody := by
  rw [fooFile1_eq, fileWriteTo]
  rw [if_pos (Or.inl fooHeader13_typeFlag)]
  rw [contentBlocksBytes_one (by decide) (by decide)]

/-! ### Byte-validity of encoder-produced headers -/

instance validBytesDecidable (l : List Nat) : Decidable (validBytes l) :=
  List.decidableBAll _ l

theorem validBytes_singleton {x : Nat} (h : x < 256) : validBytes [x] := by
  intro b hb
  rw [List.mem_singleton] at hb
  omega

theorem validBytes_newMode (m : Nat) : validBytes (newMode m) := by
  rw [newMode]
  exact validBytes_fit (validBytes_fmtOctal _ _)

theorem validBytes_newSize (n : Nat) : validBytes (newSize n) := by
  rw [newSize]
  exact validBytes_fit (validBytes_fmtOctal _ _)

theorem validBytes_newTimestamp (t : Int) : validBytes (newTimestamp t) := by
  rw [newTimestamp]
  exact validBytes_fit (validBytes_fmtOctal _ _)

theorem validBytes_newID (i : Nat) : validBytes (newID i) := by
  rw [newID]
  exact validBytes_fit (validBytes_fmtOctal _ _)

theorem validBytes_newMagic : validBytes newMagic := by decide

theorem validBytes_newVersion : validBytes newVersion := by decide

theorem validBytes_nil : validBytes ([] : List Nat) := by
  intro b hb
  cases hb

/-- Each field of the serialized record holds genuine bytes, hence so does the
whole record. -/
theorem validBytes_headerBytes_of {h : HeaderBlock}
    (h1 : validBytes (fit 100 h.name)) (h2 : validBytes (fit 8 h.mode))
    (h3 : validBytes (fit 8 h.uid)) (h4 : validBytes (fit 8 h.gid))
    (h5 : validBytes (fit 12 h.size)) (h6 : validBytes (fit 12 h.modified))
    (h7 : validBytes (fit 8 h.checkSum)) (h8 : h.typeFlag < 256)
    (h9 : validBytes (fit 100 h.linkName)) (h10 : validBytes (fit 6 h.magic))
    (h11 : validBytes (fit 2 h.version)) (h12 : validBytes (fit 32 h.userName))
    (h13 : validBytes (fit 32 h.groupName)) (h14 : validBytes (fit 8 h.devMajor))
    (h15 : validBytes (fit 8 h.devMinor)) (h16 : validBytes (fit 155 h.pfx))
    (h17 : validBytes (fit 12 h.padding)) :
    validBytes (headerBytes h) := by
  have step : ∀ {a b : List Nat}, validBytes a → validBytes b →
      validBytes (a ++ b) := fun ha hb => validBytes_append.mpr ⟨ha, hb⟩
  rw [headerBytes]
  exact step (step (step (step (step (step (step (step (step (step (step (step
    (step (step (step (step h1 h2) h3) h4) h5) h6) h7) (validBytes_singleton h8))
    h9) h10) h11) h12) h13) h14) h15) h16) h17

theorem validBytes_headerBytes_newFileBase {name : List Nat}
    (hn : validBytes name) : validBytes (headerBytes (newFileBase name)) := by
  apply validBytes_headerBytes_of
  · exact validBytes_fit (validBytes_fit hn)
  · exact validBytes_fit (validBytes_newMode _)
  · exact validBytes_fit (validBytes_newID _)
  · exact validBytes_fit (validBytes_newID _)
  · exact validBytes_fit validBytes_nil
  · exact validBytes_fit validBytes_nil
  · exact validBytes_fit validBytes_nil
  · exact (by decide : REGTYPE < 256)
  · exact validBytes_fit validBytes_nil
  · exact validBytes_fit validBytes_newMagic
  · exact validBytes_fit validBytes_newVersion
  · exact validBytes_fit validBytes_nil
  · exact validBytes_fit validBytes_nil
  · exact validBytes_fit validBytes_nil
  · exact validBytes_fit validBytes_nil
  · exact validBytes_fit validBytes_nil
  · exact validBytes_fit validBytes_nil

/-- `Validate` holds for every header `NewFile` constructs from genuine bytes. -/
theorem validate_newFile {name : List Nat} (hn : validBytes name) :
    validate (newFile name).header = true :=
  validate_withCheckSum (validBytes_headerBytes_newFileBase hn)

theorem validBytes_foo_sized (s : Nat) :
    validBytes (headerBytes { (newFile fooName).header with size := newSize s }) := by
  apply validBytes_headerBytes_of
  · exact validBytes_fit (validBytes_fit (by decide))
  · exact validBytes_fit (validBytes_newMode _)
  · exact validBytes_fit (validBytes_newID _)
  · exact validBytes_fit (validBytes_newID _)
  · exact validBytes_fit (validBytes_newSize _)
  · exact validBytes_fit validBytes_nil
  · exact validBytes_fit (validBytes_newCheckSum _)
  · exact (by decide : REGTYPE < 256)
  · exact validBytes_fit validBytes_nil
  · exact validBytes_fit validBytes_newMagic
  · exact validBytes_fit validBytes_newVersion
  · exact validBytes_fit validBytes_nil
  · exact validBytes_fit validBytes_nil
  · exact validBytes_fit validBytes_nil
  · exact validBytes_fit validBytes_nil
  · exact validBytes_fit validBytes_nil
  · exact validBytes_fit validBytes_nil

theorem validate_fooHeader13 : validate fooHeader13 = true :=
  validate_withCheckSum (validBytes_foo_sized 13)

theorem fooHeader13_typeFlag_pos : 0 < fooHeader13.typeFlag := by
  rw [fooHeader13_typeFlag]
  decide

theorem fooHeader13_not_special :
    ¬(fooHeader13.typeFlag ≠ REGTYPE ∧ fooHeader13.typeFlag ≠ CONTTYPE) :=
  fun hc => hc.1 fooHeader13_typeFlag

/-- Decoding the encoded scenario entry: the decoder consumes only 1 content
byte (the block count fed to `io.CopyN`), then `buf.Bytes()[:13]` reaches past
the single byte it buffered. -/
theorem parseFile_foo_stream :
    parseFile (fileWriteTo fooFile1 ++ List.replicate 1024 0) =
      .error .panicSliceOutOfRange := by
  rw [fileWriteTo_fooFile1, List.append_assoc,
    parseFile_headerBytes_append _ _ fooHeader13_typeFlag_pos,
    if_neg fooHeader13_not_special]
  dsimp only
  rw [headerSize_fooHeader13]
  have htl : (fit 512 helloBody ++ List.replicate 1024 0).length = 1536 := by
    rw [List.length_append, fit_length, List.length_replicate]
  rw [htl]
  split
  · rename_i hc
    exact absurd hc (by decide)
  · split
    · rfl
    · rename_i hc
      exact absurd (by decide) hc

/-- A stream that ends right after the scenario header (content truncated away)
makes `ParseFile` return plain `io.EOF` — the clean end-of-archive signal. -/
theorem parseFile_foo_header_only :
    parseFile (headerBytes fooHeader13) = .error .eof := by
  rw [← List.append_nil (headerBytes fooHeader13),
    parseFile_headerBytes_append _ _ fooHeader13_typeFlag_pos,
    if_neg fooHeader13_not_special]
  dsimp only [List.length_nil]
  rw [headerSize_fooHeader13]
  split
  · rfl
  · rename_i hc
    exact absurd (by decide) hc

/-! ### A one-byte entry, exhibiting the byte-for-block confusion cleanly -/

/-- A one-byte body, "A". -/
def oneBody : List Nat := [0x41]

/-- The header of an encoder entry holding the one-byte body. -/
def oneHeader1 : HeaderBlock :=
  withCheckSum { (newFile fooName).header with size := newSize 1 }

/-- The encoder entry after writing the one-byte body. -/
def oneFile1 : File :=
  match fileWrite (newFile fooName) oneBody with
  | .ok p => p.1
  | .error _ => newFile fooName

theorem fileWrite_one :
    fileWrite (newFile fooName) oneBody = .ok (⟨oneHeader1, oneBody, 1⟩, 1) := by
  rw [newFile_eq, fileWrite_empty]
  rfl

theorem oneFile1_eq : oneFile1 = ⟨oneHeader1, oneBody, 1⟩ := by
  unfold oneFile1
  rw [fileWrite_one]

theorem oneHeader1_typeFlag : oneHeader1.typeFlag = REGTYPE := rfl

theorem oneHeader1_typeFlag_pos : 0 < oneHeader1.typeFlag := by
  rw [oneHeader1_typeFlag]
  decide

theorem oneHeader1_not_special :
    ¬(oneHeader1.typeFlag ≠ REGTYPE ∧ oneHeader1.typeFlag ≠ CONTTYPE) :=
  fun hc => hc.1 oneHeader1_typeFlag

theorem headerSize_oneHeader1 : headerSize oneHeader1 = 1 := by
  have hs : oneHeader1.size = newSize 1 := rfl
  rw [headerSize, hs]
  decide

theorem fileWriteTo_oneFile1 :
    fileWriteTo oneFile1 = headerBytes oneHeader1 ++ fit 512 oneBody := by
  rw [oneFile1_eq, fileWriteTo]
  rw [if_pos (Or.inl oneHeader1_typeFlag)]
  rw [contentBlocksBytes_one (by decide) (by decide)]

/-- Decoding the encoded one-byte entry: only one content byte is consumed, so
511 bytes of the emitted content block are left on the stream in front of the
1024-byte footer. -/
theorem parseFile_one_stream :
    parseFile (fileWriteTo oneFile1 ++ List.replicate 1024 0) =
      .ok (⟨decodeHeader (headerBytes oneHeader1), oneBody, 0⟩,
        List.replicate 511 0 ++ List.replicate 1024 0) := by
  rw [fileWriteTo_oneFile1, List.append_assoc,
    parseFile_headerBytes_append _ _ oneHeader1_typeFlag_pos,
    if_neg oneHeader1_not_special]
  dsimp only
  rw [headerSize_oneHeader1]
  have hfit : fit 512 oneBody = 0x41 :: List.replicate 511 0 := rfl
  have htail : (fit 512 oneBody) ++ List.replicate 1024 0 =
      0x41 :: (List.replicate 511 0 ++ List.replicate 1024 0) := by
    rw [hfit]
    rfl
  rw [htail]
  have htl : (0x41 :: (List.replicate 511 0 ++ List.replicate 1024 0)).length =
      1536 := by
    rw [List.length_cons, List.length_append, List.length_replicate,
      List.length_replicate]
  rw [htl]
  split
  · rename_i hc
    exact absurd hc (by decide)
  · split
    · rename_i hc
      exact absurd hc (by decide)
    · have hmin : min 1536 ((((1 : Int) + 511) / 512).toNat) = 1 := by decide
      rw [hmin]
      rfl

/-! ### What a successful `File.Write` produces -/

/-- Characterization of every successful `File.Write`: the header is resealed
with the new Size and CheckSum, and the new buffer length is
`len(Body) - pos + len(p)` on the grow path (and unchanged otherwise). -/
theorem fileWrite_ok_spec {f : File} {p : List Nat} {f' : File} {n : Nat}
    (hw : fileWrite f p = .ok (f', n)) :
    f'.header = withCheckSum { f.header with size := newSize f'.body.length } ∧
    f'.body.length =
      (if (f.body.length : Int) - (f.pos : Int) < (p.length : Int)
       then ((f.body.length : Int) - (f.pos : Int) + (p.length : Int)).toNat
       else f.body.length) := by
  rw [fileWrite] at hw
  dsimp only at hw
  by_cases hg : (f.body.length : Int) - (f.pos : Int) < (p.length : Int)
  · rw [if_pos hg]
    by_cases hneg : (f.body.length : Int) - (f.pos : Int) + (p.length : Int) < 0
    · rw [if_pos ⟨hg, hneg⟩] at hw
      simp at hw
    · rw [if_neg (fun hc => hneg hc.2), if_pos hg] at hw
      split at hw
      · simp at hw
      · rename_i hple
        rw [Except.ok.injEq, Prod.mk.injEq] at hw
        obtain ⟨hf', -⟩ := hw
        subst hf'
        refine ⟨rfl, ?_⟩
        simp only [List.length_append, List.length_take, List.length_drop,
          List.length_replicate] at hple ⊢
        omega
  · rw [if_neg hg]
    rw [if_neg (fun hc => hg hc.1), if_neg hg] at hw
    split at hw
    · simp at hw
    · rename_i hple
      rw [Except.ok.injEq, Prod.mk.injEq] at hw
      obtain ⟨hf', -⟩ := hw
      subst hf'
      refine ⟨rfl, ?_⟩
      simp only [List.length_append, List.length_take, List.length_drop] at hple ⊢
      omega

/-- The serialized bytes before the Size field (offsets 0–123). -/
def preSizeBytes (h : HeaderBlock) : List Nat :=
  fit 100 h.name ++ fit 8 h.mode ++ fit 8 h.uid ++ fit 8 h.gid

/-- The serialized bytes after the Size field (offsets 136–511). -/
def sufSizeBytes (h : HeaderBlock) : List Nat :=
  fit 12 h.modified ++ fit 8 h.checkSum ++ [h.typeFlag] ++ fit 100 h.linkName ++
  fit 6 h.magic ++ fit 2 h.version ++ fit 32 h.userName ++ fit 32 h.groupName ++
  fit 8 h.devMajor ++ fit 8 h.devMinor ++ fit 155 h.pfx ++ fit 12 h.padding

theorem headerBytes_eq_parts_size (h : HeaderBlock) :
    headerBytes h = preSizeBytes h ++ fit 12 h.size ++ sufSizeBytes h := by
  simp [headerBytes, preSizeBytes, sufSizeBytes]

theorem preSizeBytes_setSize (h : HeaderBlock) (s : List Nat) :
    preSizeBytes { h with size := s } = preSizeBytes h := rfl

theorem sufSizeBytes_setSize (h : HeaderBlock) (s : List Nat) :
    sufSizeBytes { h with size := s } = sufSizeBytes h := rfl

theorem validBytes_headerBytes_setSize {h : HeaderBlock} {s : List Nat}
    (hv : validBytes (headerBytes h)) (hs : validBytes s) :
    validBytes (headerBytes { h with size := s }) := by
  rw [headerBytes_eq_parts_size, preSizeBytes_setSize, sufSizeBytes_setSize]
  dsimp only
  rw [headerBytes_eq_parts_size] at hv
  rw [validBytes_append] at hv ⊢
  rw [validBytes_append] at hv ⊢
  exact ⟨⟨hv.1.1, validBytes_fit hs⟩, hv.2⟩

/-- Every header a successful `File.Write` leaves behind validates, provided
the previous header held genuine bytes. -/
theorem validate_fileWrite {f : File} {p : List Nat} {f' : File} {n : Nat}
    (hv : validBytes (headerBytes f.header)) (hw : fileWrite f p = .ok (f', n)) :
    validate f'.header = true := by
  rw [(fileWrite_ok_spec hw).1]
  exact validate_withCheckSum (validBytes_headerBytes_setSize hv (validBytes_newSize _))

/-! ### Single-byte mutations of a serialized record -/

theorem byteSum_cons (a : Nat) (l : List Nat) :
    byteSum (a :: l) = (a : Int) + byteSum l := by
  simp [byteSum]

theorem byteSum_fit_nil (w : Nat) : byteSum (fit w []) = 0 := by
  simp [fit, byteSum, List.map_replicate, List.sum_replicate]

theorem slice_append_left {l₁ l₂ : List Nat} {off w : Nat}
    (h : off + w ≤ l₁.length) : slice (l₁ ++ l₂) off w = slice l₁ off w := by
  rw [slice, slice, List.drop_append_of_le_length (by omega),
    List.take_append_of_le_length (by simp; omega)]

theorem slice_append_right {l₁ l₂ : List Nat} {off w : Nat}
    (h : l₁.length ≤ off) :
    slice (l₁ ++ l₂) off w = slice l₂ (off - l₁.length) w := by
  rw [slice, slice]
  have hoff : off = l₁.length + (off - l₁.length) := by omega
  rw [hoff]
  congr 1
  simp [List.drop_append]

/-- `Validate` of a decoded 512-byte record, expressed on the raw bytes. -/
theorem validate_decode_raw {bs : List Nat} (hlen : bs.length = 512) :
    validate (decodeHeader bs) =
      (byteSum bs - byteSum (slice bs 148 8) + 256 ==
        parseOctInt (slice bs 148 8)) := by
  rw [validate, calcSum, calcTotal_decodeHeader hlen, decodeHeader_checkSum_raw,
    fit_slice (by omega), checkSumInt, decodeHeader_checkSum_raw,
    fit_slice (by omega)]
  have hc : (0x30 * 6 - 0x20 : Int) = 256 := by norm_num
  rw [hc, byteSum, byteSum]

theorem checkSumInt_decode_raw {bs : List Nat} (hlen : bs.length = 512) :
    checkSumInt (decodeHeader bs) = parseOctInt (slice bs 148 8) := by
  rw [checkSumInt, decodeHeader_checkSum_raw, fit_slice (by omega)]

theorem slice_cs_mut_low {u v : List Nat} (b b' : Nat) (h : u.length + 1 ≤ 148) :
    slice (u ++ b' :: v) 148 8 = slice (u ++ b :: v) 148 8 := by
  have h1 : u ++ b' :: v = (u ++ [b']) ++ v := by simp
  have h2 : u ++ b :: v = (u ++ [b]) ++ v := by simp
  rw [h1, h2, slice_append_right (by simp; omega),
    slice_append_right (by simp; omega)]
  simp

theorem slice_cs_mut_high {u v : List Nat} (b b' : Nat) (h : 156 ≤ u.length) :
    slice (u ++ b' :: v) 148 8 = slice (u ++ b :: v) 148 8 := by
  rw [slice_append_left (by omega), slice_append_left (by omega)]

theorem slice_cs_mid (u v : List Nat) (b : Nat)
    (h1 : 148 ≤ u.length) (h2 : u.length < 156) :
    slice (u ++ b :: v) 148 8 =
      u.drop 148 ++ b :: v.take (155 - u.length) := by
  rw [slice, List.drop_append_of_le_length h1]
  have hx : (u.drop 148).length = u.length - 148 := by simp
  have h8 : (8 : Nat) = (u.drop 148).length + (8 - (u.length - 148)) := by
    rw [hx]; omega
  rw [h8, List.take_append]
  have hk : 8 - (u.length - 148) = (155 - u.length) + 1 := by omega
  rw [hk, List.take_succ_cons]

/-- Mutating one byte of a valid serialized record — outside the checksum
field, or inside it in a way that changes the decoded checksum value — makes
`Validate` of the re-parsed record false. -/
theorem validate_mutation {u v : List Nat} {b b' : Nat}
    (hlen : (u ++ b :: v).length = 512) (hne : b' ≠ b)
    (hval : validate (decodeHeader (u ++ b :: v)) = true)
    (hcs : 148 ≤ u.length → u.length < 156 →
      checkSumInt (decodeHeader (u ++ b' :: v)) ≠
        checkSumInt (decodeHeader (u ++ b :: v))) :
    validate (decodeHeader (u ++ b' :: v)) = false := by
  have hlen0 : u.length + (v.length + 1) = 512 := by
    simpa using hlen
  have hlen' : (u ++ b' :: v).length = 512 := by
    simp
    omega
  rw [validate_decode_raw hlen'] at *
  rw [validate_decode_raw hlen, beq_iff_eq] at hval
  rw [beq_eq_false_iff_ne]
  have hsum : byteSum (u ++ b' :: v) =
      byteSum (u ++ b :: v) + (b' : Int) - (b : Int) := by
    rw [byteSum_append, byteSum_append, byteSum_cons, byteSum_cons]
    ring
  have hbne : (b' : Int) ≠ (b : Int) := by exact_mod_cast hne
  by_cases hcase1 : u.length + 1 ≤ 148
  · rw [slice_cs_mut_low b b' hcase1, hsum]
    intro hcontra
    apply hbne
    linarith [hval, hcontra]
  · by_cases hcase2 : 156 ≤ u.length
    · rw [slice_cs_mut_high b b' hcase2, hsum]
      intro hcontra
      apply hbne
      linarith [hval, hcontra]
    · have h148 : 148 ≤ u.length := by omega
      have h156 : u.length < 156 := by omega
      have hne' := hcs h148 h156
      rw [checkSumInt_decode_raw hlen', checkSumInt_decode_raw hlen] at hne'
      rw [slice_cs_mid u v b h148 h156] at hval hne'
      rw [slice_cs_mid u v b' h148 h156] at hne' ⊢
      rw [hsum]
      have hbs : byteSum (u.drop 148 ++ b' :: v.take (155 - u.length)) =
          byteSum (u.drop 148 ++ b :: v.take (155 - u.length)) +
            (b' : Int) - (b : Int) := by
        rw [byteSum_append, byteSum_append, byteSum_cons, byteSum_cons]
        ring
      rw [hbs]
      intro hcontra
      apply hne'
      linarith [hval, hcontra]

/-! ### A small sealed header used as a concrete witness -/

theorem validBytes_headerBytes_emptyHeader : validBytes (headerBytes emptyHeader) := by
  apply validBytes_headerBytes_of
  · exact validBytes_fit validBytes_nil
  · exact validBytes_fit validBytes_nil
  · exact validBytes_fit validBytes_nil
  · exact validBytes_fit validBytes_nil
  · exact validBytes_fit validBytes_nil
  · exact validBytes_fit validBytes_nil
  · exact validBytes_fit validBytes_nil
  · exact (by decide : (0 : Nat) < 256)
  · exact validBytes_fit validBytes_nil
  · exact validBytes_fit validBytes_nil
  · exact validBytes_fit validBytes_nil
  · exact validBytes_fit validBytes_nil
  · exact validBytes_fit validBytes_nil
  · exact validBytes_fit validBytes_nil
  · exact validBytes_fit validBytes_nil
  · exact validBytes_fit validBytes_nil
  · exact validBytes_fit validBytes_nil

/-- The all-zero header with its checksum sealed. -/
def sealedEmpty : HeaderBlock := withCheckSum emptyHeader

theorem validate_sealedEmpty : validate sealedEmpty = true :=
  validate_withCheckSum validBytes_headerBytes_emptyHeader

theorem sealedEmpty_shape :
    headerBytes sealedEmpty = 0 :: (headerBytes sealedEmpty).tail := rfl

/-! ## Claim theorems -/

/-- C1 (code bug): the encode half of the scenario behaves as the claim says —
writing "hello world!\n" into the `"foobar"` entry stores the 13-byte body,
Size is 13, exactly one content block is emitted, and `Validate` holds — but
decoding the serialized entry does not restore the body: `ParseFile` passes
the block count (1) to `io.CopyN` as a byte count, reads a single content
byte, and `buf.Bytes()[:13]` then reaches past the 1-byte buffer, so the
decoder cannot return the original 13 bytes and the round trip fails. -/
theorem claim_C1 :
    fileWrite fooFile0 helloBody = .ok (⟨fooHeader13, helloBody, 13⟩, 13) ∧
    fooFile1.body = helloBody ∧ fileSize fooFile1 = 13 ∧
    fileBlocks fooFile1 = 1 ∧ validate fooFile1.header = true ∧
    parseFile (fileWriteTo fooFile1 ++ List.replicate 1024 0) =
      .error .panicSliceOutOfRange := by
  refine ⟨fileWrite_foo, ?_, ?_, ?_, ?_, parseFile_foo_stream⟩
  · rw [fooFile1_eq]
  · rw [fileSize, fooFile1_eq]
    rfl
  · rw [fileBlocks, fileSize, fooFile1_eq]
    rfl
  · rw [fooFile1_eq]
    exact validate_fooHeader13

/-- C2 (code bug): the encoder emits one whole 512-byte content block for the
one-byte body, but the decoder consumes exactly 1 content byte — the block
count handed to `io.CopyN` — instead of 512: the parse succeeds with body "A"
while 1535 bytes (511 residual block bytes plus the 1024-byte footer) are
still unread, instead of the 1024-byte footer alone. -/
theorem claim_C2 :
    (contentBlocksBytes oneBody).length = 512 ∧
    parseFile (fileWriteTo oneFile1 ++ List.replicate 1024 0) =
      .ok (⟨decodeHeader (headerBytes oneHeader1), oneBody, 0⟩,
        List.replicate 511 0 ++ List.replicate 1024 0) ∧
    (List.replicate 511 (0 : Nat) ++ List.replicate 1024 (0 : Nat)).length = 1535 := by
  refine ⟨?_, parseFile_one_stream, ?_⟩
  · rw [contentBlocksBytes_one (by decide) (by decide), fit_length]
  · rw [List.length_append, List.length_replicate, List.length_replicate]

/-- C3: every header the encoder seals validates — at `NewFile` construction
and after every successful `File.Write` — and flipping any single byte of a
valid serialized record falsifies `Validate`, except a change inside the
checksum field that leaves the decoded checksum value equal (`Sscanf` ignores
padding, so for instance NUL→space there re-derives an equal checksum). -/
theorem claim_C3 :
    (∀ name : List Nat, validBytes name → validate (newFile name).header = true) ∧
    (∀ (f : File) (p : List Nat) (f' : File) (n : Nat),
      validBytes (headerBytes f.header) → fileWrite f p = .ok (f', n) →
      validate f'.header = true) ∧
    (∀ (u v : List Nat) (b b' : Nat),
      (u ++ b :: v).length = 512 → b' ≠ b →
      validate (decodeHeader (u ++ b :: v)) = true →
      (148 ≤ u.length → u.length < 156 →
        checkSumInt (decodeHeader (u ++ b' :: v)) ≠
          checkSumInt (decodeHeader (u ++ b :: v))) →
      validate (decodeHeader (u ++ b' :: v)) = false) :=
  ⟨fun _ hn => validate_newFile hn,
   fun _ _ _ _ hv hw => validate_fileWrite hv hw,
   fun _ _ _ _ hlen hne hval hcs => validate_mutation hlen hne hval hcs⟩

/-- Concrete instance of C3: the `"foobar"` entry validates at construction
and after its body write, and flipping the first serialized byte of a valid
sealed record from 0 to 1 falsifies `Validate`. -/
theorem claim_C3_witness :
    validate (newFile fooName).header = true ∧
    validate fooFile1.header = true ∧
    validate (decodeHeader (([] : List Nat) ++
      1 :: (headerBytes sealedEmpty).tail)) = false := by
  have hshape := sealedEmpty_shape
  have hlen : (([] : List Nat) ++ 0 :: (headerBytes sealedEmpty).tail).length = 512 := by
    rw [List.nil_append, ← hshape, headerBytes_length]
  have hval : validate (decodeHeader (([] : List Nat) ++
      0 :: (headerBytes sealedEmpty).tail)) = true := by
    rw [List.nil_append, ← hshape, validate_decodeHeader]
    exact validate_sealedEmpty
  refine ⟨claim_C3.1 fooName (by decide), ?_, ?_⟩
  · exact claim_C3.2.1 fooFile0 helloBody fooFile1 13
      (validBytes_headerBytes_withCheckSum
        (validBytes_headerBytes_newFileBase (by decide)))
      (by rw [fileWrite_foo, fooFile1_eq])
  · exact claim_C3.2.2 [] (headerBytes sealedEmpty).tail 0 1
      (by rw [List.nil_append] at hlen ⊢; exact hlen) (by decide) hval
      (fun hc => absurd hc (by decide))

/-- C4: the computed checksum is the sum of all 512 serialized bytes minus the
stored checksum-field bytes plus 8×0x20 (the code's literal `0x30*6 − 0x20`
equals 256 = 8×0x20), and for genuine byte contents the value is stored as
exactly 7 zero-padded octal digits with the trailing field byte left zero. -/
theorem claim_C4 :
    (∀ h : HeaderBlock,
      calcSum h = calcTotal h - byteSum (fit 8 h.checkSum) + 8 * 0x20) ∧
    (∀ h : HeaderBlock, validBytes (headerBytes h) →
      newCheckSum (calcSum h) = fmtOctal 7 (calcSum h).toNat ++ [0] ∧
      (fmtOctal 7 (calcSum h).toNat).length = 7 ∧
      ∀ d ∈ fmtOctal 7 (calcSum h).toNat, isOctDigit d = true) := by
  constructor
  · intro h
    rw [calcSum, byteSum]
    norm_num
  · intro h hv
    have h0 := calcSum_nonneg h
    have h7 := calcSum_lt hv
    refine ⟨newCheckSum_form h0 h7,
      fmtOctal_length (octDigits_length_le (by omega) (by omega)),
      fmtOctal_all_digits _ _⟩

/-- Concrete instance of C4 at the scenario header. -/
theorem claim_C4_witness :
    (calcSum fooHeader13 =
      calcTotal fooHeader13 - byteSum (fit 8 fooHeader13.checkSum) + 8 * 0x20) ∧
    (newCheckSum (calcSum fooHeader13) =
      fmtOctal 7 (calcSum fooHeader13).toNat ++ [0] ∧
      (fmtOctal 7 (calcSum fooHeader13).toNat).length = 7 ∧
      ∀ d ∈ fmtOctal 7 (calcSum fooHeader13).toNat, isOctDigit d = true) :=
  ⟨claim_C4.1 fooHeader13,
   claim_C4.2 fooHeader13
     (validBytes_headerBytes_withCheckSum (validBytes_foo_sized 13))⟩

/-- C7: a stream of two all-zero 512-byte records yields the clean
end-of-archive signal `io.EOF` from `ParseFile`, and walking it yields zero
entries and no error. -/
theorem claim_C7 :
    parseFile (List.replicate 1024 0) = .error .eof ∧
    walk (List.replicate 1024 0) = .ok [] := by
  have h1 : parseFile (List.replicate 1024 0) = .error .eof := by
    have hsplit : (List.replicate 1024 (0 : Nat)) =
        List.replicate 512 0 ++ List.replicate 512 0 := by
      rw [← List.replicate_add]
    rw [hsplit]
    exact parseFile_zero_record _
  exact ⟨h1, walk_eof h1⟩

/-- C8 as stated is false: a stream with zero bytes remaining yields plain
`io.EOF` — the same clean end-of-archive signal as a footer record, not a
truncated-stream error — and `Walk` on the empty stream ends without error. -/
theorem claim_C8_counterexample :
    parseFile ([] : List Nat) = .error .eof ∧
    walk ([] : List Nat) = .ok [] ∧
    TarErr.eof ≠ TarErr.unexpectedEof :=
  ⟨parseFile_nil, walk_eof parseFile_nil, by decide⟩

/-- C8 amended: a stream holding at least one but fewer than 512 bytes fails
with the truncated-stream error `io.ErrUnexpectedEOF`; a zero-byte stream and
a stream that ends before the declared content bytes (here: the scenario
header with its content truncated away) instead produce the clean `io.EOF`
end-of-archive signal, not an error. -/
theorem claim_C8_amended :
    (∀ s : List Nat, 0 < s.length → s.length < 512 →
      parseFile s = .error .unexpectedEof) ∧
    parseFile ([] : List Nat) = .error .eof ∧
    parseFile (headerBytes fooHeader13) = .error .eof :=
  ⟨fun _ h0 h512 => parseFile_short h0 h512, parseFile_nil,
    parseFile_foo_header_only⟩

/-- Concrete instance of the amended C8: a one-byte stream is a truncated
header. -/
theorem claim_C8_amended_witness : parseFile [0] = .error .unexpectedEof :=
  claim_C8_amended.1 [0] (by decide) (by decide)

/-- C9 (code bug): after every successful `File.Write`, Size and CheckSum are
indeed recomputed from the new buffer, but the buffer's length follows
`len(Body) - pos + len(p)` on the grow path rather than the claimed
`max(len(Body), pos + len(p))`: writing 2 bytes at cursor 0 over a 1-byte body
yields a 3-byte body `[0x62, 0x63, 0x00]`, not the claimed 2 bytes. -/
theorem claim_C9 :
    (∀ (f : File) (p : List Nat) (f' : File) (n : Nat),
      fileWrite f p = .ok (f', n) →
      f'.header = withCheckSum { f.header with size := newSize f'.body.length } ∧
      f'.body.length =
        (if (f.body.length : Int) - (f.pos : Int) < (p.length : Int)
         then ((f.body.length : Int) - (f.pos : Int) + (p.length : Int)).toNat
         else f.body.length)) ∧
    (match fileWrite ⟨emptyHeader, [0x61], 0⟩ [0x62, 0x63] with
     | .ok q => q.1.body
     | .error _ => []) = [0x62, 0x63, 0] ∧
    ([0x62, 0x63, 0] : List Nat).length ≠ max 1 (0 + 2) := by
  refine ⟨fun _ _ _ _ hw => fileWrite_ok_spec hw, ?_, by decide⟩
  rfl

/-- The `NewFile`-then-write path as a concrete instance of C9's general law. -/
def wit9File : File := ⟨withCheckSum { emptyHeader with size := newSize 0 }, [], 0⟩

/-- Concrete instance of C9's general law at an empty write. -/
theorem claim_C9_witness :
    wit9File.header =
      withCheckSum { emptyHeader with size := newSize wit9File.body.length } ∧
    wit9File.body.length =
      (if (0 : Int) - (0 : Int) < (0 : Int)
       then ((0 : Int) - (0 : Int) + (0 : Int)).toNat else 0) :=
  claim_C9.1 ⟨emptyHeader, [], 0⟩ [] wit9File 0 (fileWrite_empty emptyHeader [])

/-- C10: a single all-zero record terminates decoding by itself: whatever
follows it, `ParseFile` returns the clean `io.EOF` signal after that one
record, and `Walk` ends with zero entries — no second footer record is read
or required. -/
theorem claim_C10 (rest : List Nat) :
    parseFile (List.replicate 512 0 ++ rest) = .error .eof ∧
    walk (List.replicate 512 0 ++ rest) = .ok [] :=
  ⟨parseFile_zero_record rest, walk_eof (parseFile_zero_record rest)⟩

/-! ### Long-name splitting (src/block.go) -/

/-- `NewString100` (src/block.go:53): `PropertyOverflow` when `len(b)-1 >= 100`
(Go `int` arithmetic; in `Nat` the same test `len - 1 ≥ 100` rejects exactly
the strings longer than 100 bytes), otherwise the 100-byte array. -/
def newString100 (s : List Nat) : Except TarErr (List Nat) :=
  if s.length - 1 ≥ 100 then .error .propertyOverflow else .ok (fit 100 s)

/-- `NewString155` (src/block.go:35). -/
def newString155 (s : List Nat) : Except TarErr (List Nat) :=
  if s.length - 1 ≥ 155 then .error .propertyOverflow else .ok (fit 155 s)

/-- `strings.SplitN(s, "/", 2)`: the part before the first slash and, when a
slash exists, the part after it. -/
def splitN2 : List Nat → List Nat × Option (List Nat)
  | [] => ([], none)
  | b :: bs =>
    if b = 0x2F then ([], some bs)
    else
      let r := splitN2 bs
      (b :: r.1, r.2)

theorem splitN2_snd_length :
    ∀ {s x1 : List Nat}, (splitN2 s).2 = some x1 → x1.length < s.length := by
  intro s
  induction s with
  | nil =>
    intro x1 h
    simp [splitN2] at h
  | cons b bs ih =>
    intro x1 h
    rw [splitN2] at h
    split at h
    · simp only at h
      rw [Option.some.injEq] at h
      subst h
      simp
    · dsimp only at h
      have := ih h
      simp only [List.length_cons]
      omega

/-- One resolution step of Go `path.Clean`'s documented rules over the
'/'-separated elements: ".." cancels a preceding element (and vanishes at the
root of a rooted path), every other element is kept. -/
def cleanStep (rooted : Bool) (acc : List (List Nat)) (t : List Nat) :
    List (List Nat) :=
  if t = [0x2E, 0x2E] then
    if acc ≠ [] ∧ acc.getLast? ≠ some [0x2E, 0x2E] then acc.dropLast
    else if rooted then acc else acc ++ [t]
  else acc ++ [t]

/-- Go `path.Clean`, modelled from its documented rules: split on slashes,
drop empty and "." elements, resolve ".." elements, rejoin (a rooted path
keeps its leading slash); an empty result becomes ".". -/
def pathClean (s : List Nat) : List Nat :=
  if s = [] then [0x2E]
  else
    let rooted := s.headD 0 == 0x2F
    let segs := (s.splitOn 0x2F).filter (fun t => !(t == []) && !(t == [0x2E]))
    let segs2 := segs.foldl (cleanStep rooted) []
    let out := (if rooted then [0x2F] else []) ++ List.intercalate [0x2F] segs2
    if out = [] then [0x2E] else out

/-- Go `path.Join(a, b)`: empty elements before the first nonempty one are
skipped, the rest joined with '/' and cleaned; all-empty yields "". -/
def pathJoin (a b : List Nat) : List Nat :=
  if a = [] then (if b = [] then [] else pathClean b)
  else pathClean (a ++ 0x2F :: b)

/-- Structural helper for the peeling loop; the fuel only forces termination
and `splitLoop` always supplies enough. -/
def splitLoopAux : Nat → List Nat → List Nat → Except TarErr (List Nat × List Nat)
  | 0, _, _ => .error .panicIndexOutOfRange
  | fuel + 1, pre, name =>
    if name.length - 1 ≥ 100 then
      match splitN2 name with
      | (x0, some x1) => splitLoopAux fuel (pathJoin pre x0) x1
      | (_, none) => .error .panicIndexOutOfRange
    else .ok (pre, name)

/-- The prefix-peeling loop of `NewHeaderBlock` (src/block.go:343): while the
name is longer than 100 bytes, `path.Join` its first '/'-component onto the
prefix.  A too-long name without any slash makes the Go code index `xs[1]` of
a one-element slice — an index-out-of-range panic. -/
def splitLoop (pre name : List Nat) : Except TarErr (List Nat × List Nat) :=
  splitLoopAux (name.length + 1) pre name

theorem splitLoopAux_congr :
    ∀ fuel₁ fuel₂ pre name, name.length < fuel₁ → name.length < fuel₂ →
      splitLoopAux fuel₁ pre name = splitLoopAux fuel₂ pre name := by
  intro fuel₁
  induction fuel₁ with
  | zero => omega
  | succ f ih =>
    intro fuel₂ pre name h1 h2
    cases fuel₂ with
    | zero => omega
    | succ g =>
      rw [splitLoopAux, splitLoopAux]
      split
      · rename_i hlong
        cases hs : splitN2 name with
        | mk x0 o =>
          cases o with
          | none => rfl
          | some x1 =>
            have hx1 : x1.length < name.length := splitN2_snd_length (by rw [hs])
            exact ih g (pathJoin pre x0) x1 (by omega) (by omega)
      · rfl

/-- The loop exits as soon as the name fits in 100 bytes. -/
theorem splitLoop_done {pre name : List Nat} (h : name.length ≤ 100) :
    splitLoop pre name = .ok (pre, name) := by
  rw [splitLoop, splitLoopAux, if_neg (by omega)]

/-- One peeling iteration of the loop. -/
theorem splitLoop_step {pre name x0 x1 : List Nat} (hlong : 101 ≤ name.length)
    (hsplit : splitN2 name = (x0, some x1)) :
    splitLoop pre name = splitLoop (pathJoin pre x0) x1 := by
  have hx1 : x1.length < name.length := splitN2_snd_length (by rw [hsplit])
  rw [splitLoop, splitLoopAux, if_pos (by omega), hsplit, splitLoop]
  exact splitLoopAux_congr _ _ _ _ (by omega) (by omega)

/-- `NewHeaderBlock` (src/block.go:339).  The inputs are what the function
reads from its `os.FileInfo`: `info.Name()`, `info.Mode()`, and
`info.ModTime().Unix()`.  A `PropertyOverflow` from either string constructor
is surfaced as `NameTooLong`. -/
def newHeaderBlock (name0 : List Nat) (mode : Nat) (mtime : Int) :
    Except TarErr HeaderBlock :=
  match splitLoop [] name0 with
  | .error e => .error e
  | .ok (pre, name) =>
    match newString100 name with
    | .error _ => .error .nameTooLong
    | .ok n =>
      match newString155 pre with
      | .error _ => .error .nameTooLong
      | .ok p =>
        .ok (withCheckSum
          { name := n
            mode := newMode mode
            uid := []
            gid := []
            size := []
            modified := newTimestamp mtime
            checkSum := []
            typeFlag := newTypeFlag mode
            linkName := []
            magic := newMagic
            version := newVersion
            userName := []
            groupName := []
            devMajor := []
            devMinor := []
            pfx := p
            padding := [] })

/-- A path segment the cleaning rules leave untouched: nonempty, free of
slashes and NULs, and not "." or "..". -/
def goodSeg (s : List Nat) : Bool :=
  !(s == []) && s.all (fun b => b != 0x2F && b != 0) &&
    !(s == [0x2E]) && !(s == [0x2E, 0x2E])

/-! ### Intercalation of clean segments -/

theorem intercalate_singleton {c : Nat} (x : List Nat) :
    List.intercalate [c] [x] = x := by
  simp [List.intercalate]

theorem intercalate_cons_ne {c : Nat} (x : List Nat) {xs : List (List Nat)}
    (h : xs ≠ []) :
    List.intercalate [c] (x :: xs) = x ++ c :: List.intercalate [c] xs := by
  cases xs with
  | nil => exact absurd rfl h
  | cons y ys => rfl

theorem intercalate_append_ne {c : Nat} {xs ys : List (List Nat)}
    (hx : xs ≠ []) (hy : ys ≠ []) :
    List.intercalate [c] (xs ++ ys) =
      List.intercalate [c] xs ++ c :: List.intercalate [c] ys := by
  induction xs with
  | nil => exact absurd rfl hx
  | cons x xs ih =>
    cases xs with
    | nil =>
      rw [List.singleton_append, intercalate_cons_ne x hy, intercalate_singleton]
    | cons z zs =>
      rw [List.cons_append, intercalate_cons_ne x (by simp),
        intercalate_cons_ne x (by simp), ih (by simp)]
      simp [List.append_assoc]

theorem goodSeg_ne_nil {s : List Nat} (h : goodSeg s = true) : s ≠ [] := by
  intro hc
  subst hc
  simp [goodSeg] at h

theorem goodSeg_no_slash {s : List Nat} (h : goodSeg s = true) :
    ∀ b ∈ s, b ≠ 0x2F := by
  intro b hb
  rw [goodSeg] at h
  simp only [Bool.and_eq_true, List.all_eq_true] at h
  have := h.1.1.2 b hb
  simp only [Bool.and_eq_true, bne_iff_ne, ne_eq] at this
  exact this.1

theorem goodSeg_no_nul {s : List Nat} (h : goodSeg s = true) :
    ∀ b ∈ s, b ≠ 0 := by
  intro b hb
  rw [goodSeg] at h
  simp only [Bool.and_eq_true, List.all_eq_true] at h
  have := h.1.1.2 b hb
  simp only [Bool.and_eq_true, bne_iff_ne, ne_eq] at this
  exact this.2

theorem goodSeg_ne_dot {s : List Nat} (h : goodSeg s = true) : s ≠ [0x2E] := by
  rw [goodSeg] at h
  simp only [Bool.and_eq_true, Bool.not_eq_true', beq_eq_false_iff_ne, ne_eq] at h
  exact h.1.2

theorem goodSeg_ne_dotdot {s : List Nat} (h : goodSeg s = true) :
    s ≠ [0x2E, 0x2E] := by
  rw [goodSeg] at h
  simp only [Bool.and_eq_true, Bool.not_eq_true', beq_eq_false_iff_ne, ne_eq] at h
  exact h.2

theorem intercalate_good_ne_nil {segs : List (List Nat)} (hne : segs ≠ [])
    (hg : ∀ s ∈ segs, goodSeg s = true) :
    List.intercalate [0x2F] segs ≠ [] := by
  cases segs with
  | nil => exact absurd rfl hne
  | cons x xs =>
    cases xs with
    | nil =>
      rw [intercalate_singleton]
      exact goodSeg_ne_nil (hg x (by simp))
    | cons z zs =>
      rw [intercalate_cons_ne x (by simp)]
      have hx := goodSeg_ne_nil (hg x (by simp))
      intro hc
      rw [List.append_eq_nil] at hc
      exact hx hc.1

theorem intercalate_good_no_nul {segs : List (List Nat)}
    (hg : ∀ s ∈ segs, goodSeg s = true) :
    ∀ b ∈ List.intercalate [0x2F] segs, b ≠ 0 := by
  induction segs with
  | nil => simp [List.intercalate]
  | cons x xs ih =>
    cases xs with
    | nil =>
      rw [intercalate_singleton]
      exact goodSeg_no_nul (hg x (by simp))
    | cons z zs =>
      rw [intercalate_cons_ne x (by simp)]
      intro b hb
      rw [List.mem_append] at hb
      rcases hb with hb | hb
      · exact goodSeg_no_nul (hg x (by simp)) b hb
      · rw [List.mem_cons] at hb
        rcases hb with rfl | hb
        · decide
        · exact ih (fun s hs => hg s (by simp [hs])) b hb

theorem intercalate_good_head {segs : List (List Nat)} (hne : segs ≠ [])
    (hg : ∀ s ∈ segs, goodSeg s = true) :
    (List.intercalate [0x2F] segs).headD 0 ≠ 0x2F := by
  cases segs with
  | nil => exact absurd rfl hne
  | cons x xs =>
    have hx := goodSeg_ne_nil (hg x (by simp))
    have hsl := goodSeg_no_slash (hg x (by simp))
    cases hxc : x with
    | nil => exact absurd hxc hx
    | cons b bs =>
      have hb : b ≠ 0x2F := hsl b (by rw [hxc]; simp)
      cases xs with
      | nil =>
        rw [intercalate_singleton]
        simpa using hb
      | cons z zs =>
        rw [intercalate_cons_ne (b :: bs) (show (z :: zs : List (List Nat)) ≠ [] by simp)]
        simpa using hb

theorem foldl_cleanStep (r : Bool) :
    ∀ (segs : List (List Nat)) (acc : List (List Nat)),
      (∀ t ∈ segs, t ≠ [0x2E, 0x2E]) →
      segs.foldl (cleanStep r) acc = acc ++ segs := by
  intro segs
  induction segs with
  | nil => simp
  | cons t ts ih =>
    intro acc h
    rw [List.foldl_cons, cleanStep, if_neg (h t (by simp)),
      ih _ (fun s hs => h s (by simp [hs]))]
    simp

/-- `path.Clean` leaves a '/'-join of clean segments unchanged. -/
theorem pathClean_intercalate {segs : List (List Nat)} (hne : segs ≠ [])
    (hg : ∀ s ∈ segs, goodSeg s = true) :
    pathClean (List.intercalate [0x2F] segs) = List.intercalate [0x2F] segs := by
  rw [pathClean, if_neg (intercalate_good_ne_nil hne hg)]
  dsimp only
  have hroot : ((List.intercalate [0x2F] segs).headD 0 == 0x2F) = false := by
    simpa using intercalate_good_head hne hg
  rw [hroot]
  have hsplit : (List.intercalate [0x2F] segs).splitOn 0x2F = segs :=
    List.splitOn_intercalate segs 0x2F
      (fun l hl hc => goodSeg_no_slash (hg l hl) 0x2F hc rfl) hne
  rw [hsplit]
  have hfilter : segs.filter (fun t => !(t == []) && !(t == [0x2E])) = segs := by
    apply List.filter_eq_self.mpr
    intro t ht
    simp only [Bool.and_eq_true, Bool.not_eq_true', beq_eq_false_iff_ne, ne_eq]
    exact ⟨goodSeg_ne_nil (hg t ht), goodSeg_ne_dot (hg t ht)⟩
  rw [hfilter, foldl_cleanStep false segs [] (fun t ht => goodSeg_ne_dotdot (hg t ht))]
  simp only [Bool.false_eq_true, if_false, List.nil_append]
  rw [if_neg (intercalate_good_ne_nil hne hg)]

/-- `path.Join` of a clean joined prefix and one more clean segment is their
'/'-join. -/
theorem pathJoin_good {a : List (List Nat)} {b0 : List Nat}
    (hga : ∀ s ∈ a, goodSeg s = true) (hgb : goodSeg b0 = true) :
    pathJoin (List.intercalate [0x2F] a) b0 =
      List.intercalate [0x2F] (a ++ [b0]) := by
  cases a with
  | nil =>
    have hb := goodSeg_ne_nil hgb
    have hclean : pathClean b0 = b0 := by
      have := @pathClean_intercalate [b0] (by simp)
        (fun s hs => by rw [List.mem_singleton] at hs; rw [hs]; exact hgb)
      rwa [intercalate_singleton] at this
    rw [show List.intercalate [0x2F] ([] : List (List Nat)) = [] from rfl,
      pathJoin, if_pos rfl, if_neg hb, hclean, List.nil_append,
      intercalate_singleton]
  | cons x xs =>
    have hane : (x :: xs : List (List Nat)) ≠ [] := by simp
    rw [pathJoin, if_neg (intercalate_good_ne_nil hane hga)]
    calc pathClean (List.intercalate [0x2F] (x :: xs) ++ 0x2F :: b0)
        = pathClean (List.intercalate [0x2F] ((x :: xs) ++ [b0])) := by
          rw [intercalate_append_ne hane (by simp), intercalate_singleton]
      _ = List.intercalate [0x2F] ((x :: xs) ++ [b0]) := by
          apply pathClean_intercalate (by simp)
          intro s hs
          rw [List.mem_append] at hs
          rcases hs with hs | hs
          · exact hga s hs
          · rw [List.mem_singleton] at hs
            rw [hs]
            exact hgb

/-- The reassembled path of a construction result (`Header.Name()` on success,
nothing on failure). -/
def headerNameOf : Except TarErr HeaderBlock → List Nat
  | .ok h => headerName h
  | .error _ => []

/-- Whether header construction succeeded. -/
def exceptIsOk : Except TarErr HeaderBlock → Bool
  | .ok _ => true
  | .error _ => false

/-- Whether header construction failed with `NameTooLong`. -/
def isNameTooLongErr : Except TarErr HeaderBlock → Bool
  | .error .nameTooLong => true
  | _ => false

theorem splitN2_no_slash :
    ∀ {s : List Nat}, (∀ b ∈ s, b ≠ 0x2F) → splitN2 s = (s, none) := by
  intro s
  induction s with
  | nil => intro _; rfl
  | cons b bs ih =>
    intro h
    rw [splitN2, if_neg (h b (by simp))]
    dsimp only
    rw [ih (fun c hc => h c (by simp [hc]))]

theorem splitN2_append (s t : List Nat) (h : ∀ b ∈ s, b ≠ 0x2F) :
    splitN2 (s ++ 0x2F :: t) = (s, some t) := by
  induction s with
  | nil =>
    rw [List.nil_append, splitN2, if_pos rfl]
  | cons b bs ih =>
    rw [List.cons_append, splitN2, if_neg (h b (by simp))]
    dsimp only
    rw [ih (fun c hc => h c (by simp [hc]))]

theorem fit_length_of_le {w : Nat} {s : List Nat} (h : s.length ≤ w) :
    (fit w s).length = w := by
  simp only [fit, List.length_append, List.length_take, List.length_replicate]
  omega

theorem fit_idem {w : Nat} {s : List Nat} (h : s.length ≤ w) :
    fit w (fit w s) = fit w s := by
  conv_lhs => rw [fit]
  rw [fit_length_of_le h, List.take_of_length_le (le_of_eq (fit_length_of_le h)),
    Nat.sub_self, List.replicate_zero, List.append_nil]

theorem trimRightNul_fit {w : Nat} {s : List Nat} (hle : s.length ≤ w)
    (hnz : ∀ b ∈ s, b ≠ 0) : trimRightNul (fit w s) = s := by
  rw [fit, List.take_of_length_le hle, trimRightNul, List.reverse_append,
    List.reverse_replicate]
  have hdrop : ∀ m, List.dropWhile (fun b => b == 0)
      (List.replicate m 0 ++ s.reverse) =
      List.dropWhile (fun b => b == 0) s.reverse := by
    intro m
    induction m with
    | zero => rfl
    | succ k ih =>
      rw [List.replicate_succ, List.cons_append,
        List.dropWhile_cons_of_pos (by simp), ih]
  rw [hdrop]
  cases hs : s.reverse with
  | nil =>
    rw [List.reverse_eq_nil_iff] at hs
    subst hs
    rfl
  | cons c cs =>
    have hcmem : c ∈ s := by
      rw [← List.mem_reverse, hs]
      simp
    rw [List.dropWhile_cons_of_neg (by simpa using hnz c hcmem), ← hs,
      List.reverse_reverse]

theorem pfx_setCheckSum (h : HeaderBlock) (c : List Nat) :
    ({ h with checkSum := c } : HeaderBlock).pfx = h.pfx := rfl

theorem name_setCheckSum (h : HeaderBlock) (c : List Nat) :
    ({ h with checkSum := c } : HeaderBlock).name = h.name := rfl

theorem withCheckSum_pfx (h : HeaderBlock) : (withCheckSum h).pfx = h.pfx := by
  rw [withCheckSum]

theorem withCheckSum_name (h : HeaderBlock) : (withCheckSum h).name = h.name := by
  rw [withCheckSum]

theorem intercalate_take_length_le (b : List (List Nat)) (j k : Nat)
    (hjk : j ≤ k) :
    (List.intercalate [0x2F] (b.take j)).length ≤
      (List.intercalate [0x2F] (b.take k)).length := by
  rcases Nat.eq_zero_or_pos j with hj | hj
  · subst hj
    simp [List.intercalate]
  · have hsplit : b.take k = b.take j ++ (b.drop j).take (k - j) := by
      rw [← List.take_add]
      congr 1
      omega
    cases hmid : (b.drop j).take (k - j) with
    | nil =>
      rw [hsplit, hmid, List.append_nil]
    | cons m ms =>
      have hdne : b.drop j ≠ [] := by
        intro hc
        rw [hc] at hmid
        simp at hmid
      have hbne : b ≠ [] := by
        intro hc
        subst hc
        exact hdne List.drop_nil
      have htne : b.take j ≠ [] := by
        intro hc
        rw [List.take_eq_nil_iff] at hc
        rcases hc with hc | hc
        · omega
        · exact hbne hc
      rw [hsplit, hmid, intercalate_append_ne htne (by simp)]
      simp only [List.length_append, List.length_cons]
      omega

/-- On a '/'-join of clean segments the peeling loop stops at the first
position where the remaining name fits in 100 bytes, having joined the peeled
segments onto the prefix — provided some tail of the segment list fits. -/
theorem splitLoopGoodAux :
    ∀ (n : Nat) (a b : List (List Nat)), b.length ≤ n →
      (∀ s ∈ a, goodSeg s = true) → (∀ s ∈ b, goodSeg s = true) → b ≠ [] →
      (∃ k, k < b.length ∧ (List.intercalate [0x2F] (b.drop k)).length ≤ 100) →
      ∃ j, j < b.length ∧
        (List.intercalate [0x2F] (b.drop j)).length ≤ 100 ∧
        (∀ m, m < j → 100 < (List.intercalate [0x2F] (b.drop m)).length) ∧
        splitLoop (List.intercalate [0x2F] a) (List.intercalate [0x2F] b) =
          .ok (List.intercalate [0x2F] (a ++ b.take j),
               List.intercalate [0x2F] (b.drop j)) := by
  intro n
  induction n with
  | zero =>
    intro a b hn _ _ hbne _
    rw [Nat.le_zero, List.length_eq_zero] at hn
    exact absurd hn hbne
  | succ n ih =>
    intro a b hn hga hgb hbne hfit
    by_cases h100 : (List.intercalate [0x2F] b).length ≤ 100
    · refine ⟨0, ?_, ?_, ?_, ?_⟩
      · exact List.length_pos.mpr hbne
      · simpa using h100
      · omega
      · rw [List.take_zero, List.append_nil, List.drop_zero]
        exact splitLoop_done h100
    · cases b with
      | nil => exact absurd rfl hbne
      | cons s rest =>
        cases rest with
        | nil =>
          obtain ⟨k, hk, hkdrop⟩ := hfit
          have hk0 : k = 0 := by
            simp only [List.length_cons, List.length_nil] at hk
            omega
          subst hk0
          rw [List.drop_zero] at hkdrop
          exact absurd hkdrop h100
        | cons r rs =>
          have hsg : goodSeg s = true := hgb s (by simp)
          have hrg : ∀ t ∈ r :: rs, goodSeg t = true :=
            fun t ht => hgb t (by simp [ht])
          have hI : List.intercalate [0x2F] (s :: r :: rs) =
              s ++ 0x2F :: List.intercalate [0x2F] (r :: rs) :=
            intercalate_cons_ne s (by simp)
          have hstep : splitLoop (List.intercalate [0x2F] a)
              (List.intercalate [0x2F] (s :: r :: rs)) =
              splitLoop (pathJoin (List.intercalate [0x2F] a) s)
                (List.intercalate [0x2F] (r :: rs)) := by
            apply splitLoop_step (by omega)
            rw [hI]
            exact splitN2_append s _ (goodSeg_no_slash hsg)
          rw [pathJoin_good hga hsg] at hstep
          have hfit' : ∃ k, k < (r :: rs).length ∧
              (List.intercalate [0x2F] ((r :: rs).drop k)).length ≤ 100 := by
            obtain ⟨k, hk, hkdrop⟩ := hfit
            cases k with
            | zero =>
              rw [List.drop_zero] at hkdrop
              exact absurd hkdrop h100
            | succ k' =>
              refine ⟨k', ?_, ?_⟩
              · simp only [List.length_cons] at hk ⊢
                omega
              · rw [List.drop_succ_cons] at hkdrop
                exact hkdrop
          obtain ⟨j', hj'lt, hj'drop, hj'min, hj'eq⟩ :=
            ih (a ++ [s]) (r :: rs)
              (by simp only [List.length_cons] at hn ⊢; omega)
              (by
                intro t ht
                rw [List.mem_append] at ht
                rcases ht with ht | ht
                · exact hga t ht
                · rw [List.mem_singleton] at ht
                  rw [ht]
                  exact hsg)
              hrg (by simp) hfit'
          refine ⟨j' + 1, ?_, ?_, ?_, ?_⟩
          · simp only [List.length_cons] at hj'lt ⊢
            omega
          · rw [List.drop_succ_cons]
            exact hj'drop
          · intro m hm
            cases m with
            | zero =>
              rw [List.drop_zero]
              omega
            | succ m' =>
              rw [List.drop_succ_cons]
              exact hj'min m' (by omega)
          · rw [hstep, hj'eq, List.take_succ_cons, List.drop_succ_cons,
              List.append_assoc, List.singleton_append]

set_option maxRecDepth 4000 in
/-- C5 (counterexample): a path whose first '/'-delimited segment is 120 bytes
long — longer than the 100-byte Name field — does NOT fail with `NameTooLong`:
`NewHeaderBlock` peels that first segment into the Prefix field (which holds up
to 155 bytes), so construction succeeds. -/
theorem claim_C5_counterexample :
    100 < (List.replicate 120 (0x61 : Nat)).length ∧
    splitN2 (List.replicate 120 (0x61 : Nat) ++ 0x2F :: [0x62]) =
      (List.replicate 120 (0x61 : Nat), some [0x62]) ∧
    exceptIsOk (newHeaderBlock
      (List.replicate 120 (0x61 : Nat) ++ 0x2F :: [0x62]) 0 0) = true ∧
    isNameTooLongErr (newHeaderBlock
      (List.replicate 120 (0x61 : Nat) ++ 0x2F :: [0x62]) 0 0) = false := by
  decide

/-- C5 (amended): construction fails with `NameTooLong` when the peeled-off
prefix cannot fit its 155-byte field: for a clean first segment longer than 155
bytes followed by a remainder of at most 100 bytes, `NewHeaderBlock` returns
`NameTooLong`. -/
theorem claim_C5_amended (seg t : List Nat) (mode : Nat) (mtime : Int)
    (hg : goodSeg seg = true) (hlen : 155 < seg.length) (ht : t.length ≤ 100) :
    newHeaderBlock (seg ++ 0x2F :: t) mode mtime = .error .nameTooLong := by
  have hstep : splitLoop [] (seg ++ 0x2F :: t) = splitLoop (pathJoin [] seg) t := by
    apply splitLoop_step
      (by simp only [List.length_append, List.length_cons]; omega)
    exact splitN2_append seg t (goodSeg_no_slash hg)
  have hpj : pathJoin [] seg = seg := by
    have h := @pathJoin_good [] seg (by simp) hg
    rw [show List.intercalate [0x2F] ([] : List (List Nat)) = [] from rfl,
      List.nil_append, intercalate_singleton] at h
    exact h
  have hloop : splitLoop [] (seg ++ 0x2F :: t) = .ok (seg, t) := by
    rw [hstep, hpj]
    exact splitLoop_done ht
  have h100 : newString100 t = .ok (fit 100 t) := by
    rw [newString100, if_neg (show ¬t.length - 1 ≥ 100 from by omega)]
  have h155 : newString155 seg = .error .propertyOverflow := by
    rw [newString155, if_pos (show seg.length - 1 ≥ 155 from by omega)]
  simp only [newHeaderBlock, hloop, h100, h155]

set_option maxRecDepth 4000 in
/-- C5 (amended, witness): a 156-byte clean first segment followed by a
one-byte remainder is rejected with `NameTooLong`. -/
theorem claim_C5_amended_witness :
    goodSeg (List.replicate 156 (0x61 : Nat)) = true ∧
    newHeaderBlock (List.replicate 156 (0x61 : Nat) ++ 0x2F :: [0x62]) 0 0 =
      .error .nameTooLong :=
  ⟨by decide,
   claim_C5_amended (List.replicate 156 (0x61 : Nat)) [0x62] 0 0
     (by decide) (by decide) (by decide)⟩

set_option maxRecDepth 4000 in
/-- C6 (counterexample): the path "a/./" followed by 100 'a's is 104 bytes
long and splits at its last '/' into a 3-byte prefix and a 100-byte name, so
the claim's hypothesis holds; construction succeeds, but `path.Join` runs
`path.Clean` on the peeled prefix, dropping the "." element, so
`Header.Name()` returns "a/" ++ 100 'a's — not the original path. -/
theorem claim_C6_counterexample :
    100 < (([0x61, 0x2F, 0x2E] ++ 0x2F :: List.replicate 100 (0x61 : Nat))).length ∧
    ([0x61, 0x2F, 0x2E] : List Nat).length ≤ 155 ∧
    (List.replicate 100 (0x61 : Nat)).length ≤ 100 ∧
    exceptIsOk (newHeaderBlock
      ([0x61, 0x2F, 0x2E] ++ 0x2F :: List.replicate 100 (0x61 : Nat)) 0 0) = true ∧
    headerNameOf (newHeaderBlock
      ([0x61, 0x2F, 0x2E] ++ 0x2F :: List.replicate 100 (0x61 : Nat)) 0 0) =
      [0x61, 0x2F] ++ List.replicate 100 (0x61 : Nat) ∧
    headerNameOf (newHeaderBlock
      ([0x61, 0x2F, 0x2E] ++ 0x2F :: List.replicate 100 (0x61 : Nat)) 0 0) ≠
      [0x61, 0x2F, 0x2E] ++ 0x2F :: List.replicate 100 (0x61 : Nat) := by
  decide

/-- C6 (amended): restricted to paths built from clean segments — nonempty,
free of '/' and NUL, none "." or ".." — the claim holds: if the path exceeds
100 bytes and some segment boundary splits it into a ≤155-byte prefix part and
a ≤100-byte name part, `NewHeaderBlock` succeeds, the stored Prefix is
nonempty, and `Header.Name()` reassembles exactly the original path. -/
theorem claim_C6_amended (segs : List (List Nat)) (mode : Nat) (mtime : Int)
    (hg : ∀ s ∈ segs, goodSeg s = true) (hne : segs ≠ [])
    (hlong : 100 < (List.intercalate [0x2F] segs).length)
    (hsplit : ∃ k, k < segs.length ∧
      (List.intercalate [0x2F] (segs.take k)).length ≤ 155 ∧
      (List.intercalate [0x2F] (segs.drop k)).length ≤ 100) :
    ∃ h, newHeaderBlock (List.intercalate [0x2F] segs) mode mtime = .ok h ∧
      trimRightNul (fit 155 h.pfx) ≠ [] ∧
      headerName h = List.intercalate [0x2F] segs := by
  obtain ⟨k, hk, hkpre, hkname⟩ := hsplit
  obtain ⟨j, hjlt, hjdrop, hjmin, hjeq⟩ :=
    splitLoopGoodAux segs.length [] segs le_rfl (by simp) hg hne ⟨k, hk, hkname⟩
  rw [show List.intercalate [0x2F] ([] : List (List Nat)) = [] from rfl,
    List.nil_append] at hjeq
  have hjk : j ≤ k := by
    by_contra hcon
    push_neg at hcon
    have := hjmin k hcon
    omega
  have hprelen : (List.intercalate [0x2F] (segs.take j)).length ≤ 155 :=
    le_trans (intercalate_take_length_le segs j k hjk) hkpre
  have hj0 : j ≠ 0 := by
    intro hc
    subst hc
    rw [List.drop_zero] at hjdrop
    omega
  have htake_ne : segs.take j ≠ [] := by
    intro hc
    rw [List.take_eq_nil_iff] at hc
    rcases hc with hc | hc
    · exact hj0 hc
    · exact hne hc
  have hdrop_ne : segs.drop j ≠ [] := by
    intro hc
    have hl := congrArg List.length hc
    rw [List.length_drop] at hl
    simp only [List.length_nil] at hl
    omega
  have htg : ∀ s ∈ segs.take j, goodSeg s = true :=
    fun s hs => hg s (List.mem_of_mem_take hs)
  have hdg : ∀ s ∈ segs.drop j, goodSeg s = true :=
    fun s hs => hg s (List.mem_of_mem_drop hs)
  have hIpre_ne : List.intercalate [0x2F] (segs.take j) ≠ [] :=
    intercalate_good_ne_nil htake_ne htg
  have h100 : newString100 (List.intercalate [0x2F] (segs.drop j)) =
      .ok (fit 100 (List.intercalate [0x2F] (segs.drop j))) := by
    rw [newString100,
      if_neg (show ¬(List.intercalate [0x2F] (segs.drop j)).length - 1 ≥ 100
        from by omega)]
  have h155 : newString155 (List.intercalate [0x2F] (segs.take j)) =
      .ok (fit 155 (List.intercalate [0x2F] (segs.take j))) := by
    rw [newString155,
      if_neg (show ¬(List.intercalate [0x2F] (segs.take j)).length - 1 ≥ 155
        from by omega)]
  have hmain : newHeaderBlock (List.intercalate [0x2F] segs) mode mtime =
      .ok (withCheckSum
        { name := fit 100 (List.intercalate [0x2F] (segs.drop j))
          mode := newMode mode
          uid := []
          gid := []
          size := []
          modified := newTimestamp mtime
          checkSum := []
          typeFlag := newTypeFlag mode
          linkName := []
          magic := newMagic
          version := newVersion
          userName := []
          groupName := []
          devMajor := []
          devMinor := []
          pfx := fit 155 (List.intercalate [0x2F] (segs.take j))
          padding := [] }) := by
    simp only [newHeaderBlock, hjeq, h100, h155]
  refine ⟨_, hmain, ?_, ?_⟩
  · rw [withCheckSum_pfx]
    show trimRightNul (fit 155 (fit 155 (List.intercalate [0x2F] (segs.take j)))) ≠ []
    rw [fit_idem hprelen, trimRightNul_fit hprelen (intercalate_good_no_nul htg)]
    exact hIpre_ne
  · rw [headerName, withCheckSum_pfx, withCheckSum_name]
    show (if trimRightNul (fit 155 (fit 155 (List.intercalate [0x2F] (segs.take j)))) = []
        then trimRightNul (fit 100 (fit 100 (List.intercalate [0x2F] (segs.drop j))))
        else trimRightNul (fit 155 (fit 155 (List.intercalate [0x2F] (segs.take j)))) ++
          0x2F :: trimRightNul (fit 100 (fit 100 (List.intercalate [0x2F] (segs.drop j))))) =
      List.intercalate [0x2F] segs
    rw [fit_idem hprelen, trimRightNul_fit hprelen (intercalate_good_no_nul htg),
      fit_idem hjdrop, trimRightNul_fit hjdrop (intercalate_good_no_nul hdg),
      if_neg hIpre_ne, ← intercalate_append_ne htake_ne hdrop_ne,
      List.take_append_drop]

set_option maxRecDepth 4000 in
/-- C6 (amended, witness): twenty 10-byte segments — a 219-byte path — split
after the eleventh segment into a 120-byte prefix and a 98-byte name;
construction succeeds and `Header.Name()` returns the original path. -/
theorem claim_C6_amended_witness :
    (∀ s ∈ List.replicate 20 (List.replicate 10 (0x61 : Nat)), goodSeg s = true) ∧
    ∃ h, newHeaderBlock
        (List.intercalate [0x2F] (List.replicate 20 (List.replicate 10 (0x61 : Nat)))) 0 0 =
        .ok h ∧
      trimRightNul (fit 155 h.pfx) ≠ [] ∧
      headerName h =
        List.intercalate [0x2F] (List.replicate 20 (List.replicate 10 (0x61 : Nat))) :=
  ⟨by decide,
   claim_C6_amended (List.replicate 20 (List.replicate 10 (0x61 : Nat))) 0 0
     (by decide) (by decide) (by decide)
     ⟨11, by decide, by decide, by decide⟩⟩

end BlankTar
